import Mathlib

/-!
Verification development for the campanhas application (models.py / views.py).
Strings are modelled as lists of characters; the Python regular expressions
used by the template engine are embedded as explicit scanners with the same
matching semantics (greedy quantifiers, leftmost scanning, ASCII case folding
for the IGNORECASE flag).  Logging calls and timestamps are elided: they do
not influence control flow or any persisted field that the claims mention.
-/

namespace Campanhas

/-! ### Basic character classes (ASCII fragment of the Python regex classes) -/

def lbrace : Char := Char.ofNat 123

def rbrace : Char := Char.ofNat 125

/-- Whitespace as matched by the regex class backslash-s and by str.strip
(ASCII fragment: space, tab, newline, carriage return, vertical tab, form feed). -/
def isWs (c : Char) : Bool :=
  c = Char.ofNat 32 || c = Char.ofNat 9 || c = Char.ofNat 10 ||
  c = Char.ofNat 13 || c = Char.ofNat 11 || c = Char.ofNat 12

def isAsciiLetter (c : Char) : Bool :=
  (decide (Char.ofNat 97 ≤ c) && decide (c ≤ Char.ofNat 122)) ||
  (decide (Char.ofNat 65 ≤ c) && decide (c ≤ Char.ofNat 90))

def isAsciiDigit (c : Char) : Bool :=
  decide (Char.ofNat 48 ≤ c) && decide (c ≤ Char.ofNat 57)

/-- First character of the identifier classes in the extraction patterns. -/
def isIdentStart (c : Char) : Bool := isAsciiLetter c || c = '_'

/-- Class of the plain identifier pattern (letters, digits, underscore). -/
def isIdentChar (c : Char) : Bool := isAsciiLetter c || isAsciiDigit c || c = '_'

/-- Class of the relaxed identifier pattern (additionally allows hyphen). -/
def isIdentCharH (c : Char) : Bool := isIdentChar c || c = '-'

/-! ### Case-insensitive literal matching (re.IGNORECASE on ASCII) -/

/-- Case-insensitive character comparison, as re.IGNORECASE performs on ASCII. -/
def ciEq (a b : Char) : Bool := a.toLower = b.toLower

/-- Match the literal word (first argument) case-insensitively against a prefix
of the second argument; on success return the remaining suffix. -/
def litCi : List Char → List Char → Option (List Char)
  | [], s => some s
  | _ :: _, [] => none
  | c :: cs, d :: ds => if ciEq c d then litCi cs ds else none

/-- Length of the maximal whitespace run at the head (greedy backslash-s star). -/
def wsCount (s : List Char) : Nat := (s.takeWhile isWs).length

/-! ### The two substitution patterns of substituir_variaveis

The Python code substitutes, for each variable name, first the exact pattern
(open braces, the escaped name, close braces) and then the whitespace padded
pattern (open braces, whitespace star, the escaped name, whitespace star,
close braces), both with re.IGNORECASE.  Each is a replace-all over the
string, scanning left to right over non-overlapping matches. -/

/-- Matcher of the exact pattern at the head of the string; on success returns
the suffix after the match. -/
def matchExact (name : List Char) (s : List Char) : Option (List Char) :=
  match s with
  | c1 :: c2 :: s1 =>
    if c1 = lbrace ∧ c2 = lbrace then
      match litCi name s1 with
      | some s2 =>
        match s2 with
        | d1 :: d2 :: s3 => if d1 = rbrace ∧ d2 = rbrace then some s3 else none
        | _ => none
      | none => none
    else none
  | _ => none

/-- One backtracking attempt of the padded pattern: skip exactly a whitespace
characters, then the literal name, then the (deterministic) greedy trailing
whitespace run, then the two closing braces. -/
def padTry (name : List Char) (s1 : List Char) (a : Nat) : Option (List Char) :=
  match litCi name (s1.drop a) with
  | some s2 =>
    match s2.drop (wsCount s2) with
    | d1 :: d2 :: s4 => if d1 = rbrace ∧ d2 = rbrace then some s4 else none
    | _ => none
  | none => none

/-- Greedy backtracking over the leading whitespace star: longest run first,
exactly as the regex engine tries it. -/
def padSearch (name : List Char) (s1 : List Char) : Nat → Option (List Char)
  | 0 => padTry name s1 0
  | a + 1 =>
    match padTry name s1 (a + 1) with
    | some r => some r
    | none => padSearch name s1 a

/-- Matcher of the whitespace padded pattern at the head of the string. -/
def matchPadded (name : List Char) (s : List Char) : Option (List Char) :=
  match s with
  | c1 :: c2 :: s1 =>
    if c1 = lbrace ∧ c2 = lbrace then padSearch name s1 (wsCount s1) else none
  | _ => none

/-! ### Fuelled replace-all (re.sub)

Both patterns consume at least one character per match, so fuel equal to the
length of the string suffices; the wrapper replaceAll always supplies it. -/

def replaceAllF (m : List Char → Option (List Char)) (v : List Char) :
    Nat → List Char → List Char
  | _, [] => []
  | 0, s => s
  | f + 1, c :: s =>
    match m (c :: s) with
    | some r => v ++ replaceAllF m v f r
    | none => c :: replaceAllF m v f s

/-- Replace every (leftmost, non-overlapping) match of the pattern recognised
by the matcher with the replacement value, exactly as re.sub does. -/
def replaceAll (m : List Char → Option (List Char)) (v : List Char)
    (s : List Char) : List Char :=
  replaceAllF m v s.length s

/-! ### substituir_variaveis (TemplateSQL.substituir_variaveis)

For each (name, value) item of the dict, in iteration (= insertion) order,
the code performs a replace-all with the exact pattern and then a replace-all
with the padded pattern.  An empty dict returns the SQL unchanged.  Values
pass through str(); we model them as strings directly. -/

def substOneVar (name v s : List Char) : List Char :=
  replaceAll (matchPadded name) v (replaceAll (matchExact name) v s)

def substituir_variaveis (sql : String) (valores : List (String × String)) : String :=
  if valores.isEmpty then sql
  else
    String.mk (valores.foldl (fun acc kv => substOneVar kv.1.data kv.2.data acc) sql.data)

/-! ### extrair_variaveis_do_sql (TemplateSQL.extrair_variaveis_do_sql)

Three findall passes are unioned into a set.  The first pattern (exact
placeholder around a plain identifier) is subsumed by the second pattern
(whitespace padded placeholder around a plain identifier, with empty runs),
producing the same group, so the union of the three pattern match sets equals
the union of the second and third.  Because every match of these patterns
starts with two open braces and has a brace-free interior, matches never
overlap, hence the set of findall groups equals the set of groups obtainable
at any position; we therefore scan every position.  Group determinism: the
greedy runs are forced, since shortening a whitespace run leaves a whitespace
character where an identifier character or closing brace is required, and
shortening an identifier run leaves an identifier character where whitespace
or a closing brace is required. -/

/-- Group of the padded plain-identifier pattern at the head, if it matches. -/
def p2At (s : List Char) : Option (List Char) :=
  match s with
  | c1 :: c2 :: s1 =>
    if c1 = lbrace ∧ c2 = lbrace then
      match s1.drop (wsCount s1) with
      | c :: rest =>
        if isIdentStart c then
          let n := rest.takeWhile isIdentChar
          let s3 := rest.dropWhile isIdentChar
          match s3.drop (wsCount s3) with
          | d1 :: d2 :: _ => if d1 = rbrace ∧ d2 = rbrace then some (c :: n) else none
          | _ => none
        else none
      | [] => none
    else none
  | _ => none

/-- Group of the exact relaxed-identifier (hyphen allowing) pattern at the
head, if it matches. -/
def p3At (s : List Char) : Option (List Char) :=
  match s with
  | c1 :: c2 :: s1 =>
    if c1 = lbrace ∧ c2 = lbrace then
      match s1 with
      | c :: rest =>
        if isIdentStart c then
          match rest.dropWhile isIdentCharH with
          | d1 :: d2 :: _ =>
            if d1 = rbrace ∧ d2 = rbrace then some (c :: rest.takeWhile isIdentCharH)
            else none
          | _ => none
        else none
      | [] => none
    else none
  | _ => none

/-- All pattern groups found at any position of the string. -/
def scanNames : List Char → List (List Char)
  | [] => []
  | c :: s =>
    (match p2At (c :: s) with | some n => [n] | none => []) ++
      (match p3At (c :: s) with | some n => [n] | none => []) ++ scanNames s

/-- Python str.strip with no argument (strip ASCII whitespace at both ends). -/
def pyStripL (s : List Char) : List Char :=
  ((s.dropWhile isWs).reverse.dropWhile isWs).reverse

def pyStripStr (s : String) : String := String.mk (pyStripL s.data)

def extrair_variaveis_do_sql (sql : String) : List String :=
  if sql.isEmpty then []
  else
    let nomes := ((scanNames sql.data).map pyStripL).filter (fun n => !n.isEmpty)
    ((nomes.map String.mk).dedup).mergeSort (fun a b => decide (a ≤ b))

/-! ### Residue scan for unsubstituted placeholders

The code logs re.findall of open braces, one or more non closing brace
characters, close braces, over the processed SQL; the claims re-scan the
output with this pattern.  The greedy run of non closing brace characters is
forced, so the matcher is deterministic; we scan every position (emptiness of
the result agrees with findall, and on all concrete inputs used here the
lists coincide). -/

def restAt (s : List Char) : Option (List Char) :=
  match s with
  | c1 :: c2 :: s1 =>
    if c1 = lbrace ∧ c2 = lbrace then
      let n := s1.takeWhile (fun c => c ≠ rbrace)
      if n.isEmpty then none
      else
        match s1.dropWhile (fun c => c ≠ rbrace) with
        | d1 :: d2 :: _ => if d1 = rbrace ∧ d2 = rbrace then some n else none
        | _ => none
    else none
  | _ => none

def scanRestantes : List Char → List (List Char)
  | [] => []
  | c :: t =>
    (match restAt (c :: t) with | some n => [n] | none => []) ++ scanRestantes t

/-! ### Well-shaped templates

The algebraic claims about the template engine quantify over SQL texts built
from brace-free text chunks and exact identifier placeholders; this is the
shape the engine is specified on (the extraction patterns recognise exactly
identifier placeholders).  A shaped text is a list of items rendered by
concatenation. -/

/-- Case-insensitive equality of words, as re.IGNORECASE compares the escaped
variable name with the text. -/
def ciListEq : List Char → List Char → Bool
  | [], [] => true
  | a :: as, b :: bs => ciEq a b && ciListEq as bs
  | _, _ => false

/-- The exact placeholder spelling of a variable name. -/
def phOf (n : List Char) : List Char :=
  lbrace :: lbrace :: (n ++ [rbrace, rbrace])

inductive Item
  | txt (t : List Char)
  | ph (n : List Char)
deriving DecidableEq

def render : List Item → List Char
  | [] => []
  | .txt t :: rest => t ++ render rest
  | .ph n :: rest => phOf n ++ render rest

/-- The chunk holds neither brace. -/
def braceFree (t : List Char) : Bool :=
  t.all (fun c => !(c = lbrace) && !(c = rbrace))

/-- Nonempty identifier, as the plain extraction patterns require. -/
def identOk : List Char → Bool
  | [] => false
  | c :: r => isIdentStart c && r.all isIdentChar

def itemOk : Item → Bool
  | .txt t => braceFree t
  | .ph n => identOk n

def itemsOk (l : List Item) : Bool := l.all itemOk

/-- Effect of one (name, value) substitution pass on a shaped text. -/
def substItem (k v : List Char) : Item → Item
  | .txt t => .txt t
  | .ph n => if ciListEq k n then .txt v else .ph n

def substItems (k v : List Char) (l : List Item) : List Item :=
  l.map (substItem k v)

/-- The placeholder names of a shaped text, in order. -/
def namesOf : List Item → List (List Char)
  | [] => []
  | .txt _ :: rest => namesOf rest
  | .ph n :: rest => n :: namesOf rest

/-- First value whose key is case-insensitively equal to the name. -/
def lookupCi : List (List Char × List Char) → List Char → Option (List Char)
  | [], _ => Option.none
  | (k, v) :: t, n => if ciListEq k n then some v else lookupCi t n

/-- Joint effect of the whole dict on a shaped text: each placeholder is
replaced by the first value whose key matches its name. -/
def resolveItem (vs : List (List Char × List Char)) : Item → Item
  | .txt t => .txt t
  | .ph n =>
    match lookupCi vs n with
    | some v => .txt v
    | Option.none => .ph n

/-- The dict items as character lists. -/
def pdata (valores : List (String × String)) : List (List Char × List Char) :=
  valores.map (fun kv => (kv.1.data, kv.2.data))

/-! ### serializar_valor_para_json (views.py)

Python values reaching the serializer are modelled by an inductive type; the
hasattr checks on strftime and hour select the date and datetime branches,
None is mapped first, and the final line returns str of the value when it is
truthy and the empty string otherwise. -/

inductive PyValue
  | none
  | str (s : String)
  | int (n : Int)
  | bool (b : Bool)
  | date (d m y : Nat)
  | datetime (d m y hh mm : Nat)
deriving DecidableEq

/-- Python truthiness of the modelled values. -/
def pyTruthy : PyValue → Bool
  | .none => false
  | .str s => !s.isEmpty
  | .int n => decide (n ≠ 0)
  | .bool b => b
  | .date _ _ _ => true
  | .datetime _ _ _ _ _ => true

def pad2 (n : Nat) : String := if n < 10 then "0" ++ toString n else toString n

def pad4 (n : Nat) : String :=
  if n < 10 then "000" ++ toString n
  else if n < 100 then "00" ++ toString n
  else if n < 1000 then "0" ++ toString n
  else toString n

/-- Python str of the modelled values (dates print in ISO form, integers in
decimal, booleans as True and False). -/
def pyStr : PyValue → String
  | .none => "None"
  | .str s => s
  | .int n => toString n
  | .bool b => if b then "True" else "False"
  | .date d m y => pad4 y ++ "-" ++ pad2 m ++ "-" ++ pad2 d
  | .datetime d m y hh mm =>
      pad4 y ++ "-" ++ pad2 m ++ "-" ++ pad2 d ++ " " ++ pad2 hh ++ ":" ++ pad2 mm ++ ":00"

/-- The serializer used for HSM variable values. -/
def serializar_valor_para_json : PyValue → String
  | .none => ""
  | .datetime d m y hh mm =>
      pad2 d ++ "/" ++ pad2 m ++ "/" ++ pad4 y ++ " " ++ pad2 hh ++ ":" ++ pad2 mm
  | .date d m y => pad2 d ++ "/" ++ pad2 m ++ "/" ++ pad4 y
  | v => if pyTruthy v then pyStr v else ""

/-! ### get_progresso_percentual (EnvioHSMMatrix.get_progresso_percentual)

The three counter fields are Python integers; the division is modelled over
the rationals, and round(x, 2) as round half to even at two decimal places
(the binary floating point representation is abstracted to exact rational
arithmetic). -/

/-- Round half to even, the rounding mode of the Python round builtin. -/
def roundHalfEven (q : ℚ) : Int :=
  if q - ((⌊q⌋ : Int) : ℚ) < 1 / 2 then ⌊q⌋
  else if 1 / 2 < q - ((⌊q⌋ : Int) : ℚ) then ⌊q⌋ + 1
  else if ⌊q⌋ % 2 = 0 then ⌊q⌋ else ⌊q⌋ + 1

/-- Python round(x, 2) over the rationals. -/
def pyRound2 (q : ℚ) : ℚ := ((roundHalfEven (q * 100) : ℚ)) / 100

def get_progresso_percentual (total_clientes total_enviados total_erros : Int) : ℚ :=
  if total_clientes = 0 then 0
  else pyRound2 (((total_enviados : ℚ) + (total_erros : ℚ)) / (total_clientes : ℚ) * 100)

/-! ### Query preparation in executar_consulta_sql (views.py)

When variable values are present the SQL text goes through
substituir_variaveis, otherwise it is taken verbatim; the result is then
stripped of leading and trailing whitespace (query.strip()) and handed to the
database cursor unchanged. -/

/-- The SQL text after optional variable substitution, before strip. -/
def consulta_processada (consulta_sql : String) (valores : List (String × String)) : String :=
  if !valores.isEmpty then substituir_variaveis consulta_sql valores else consulta_sql

/-- The statement actually passed to cursor.execute. -/
def preparar_query_sql (consulta_sql : String) (valores : List (String × String)) : String :=
  pyStripStr (consulta_processada consulta_sql valores)

/-- Whitespace collapsing as described by the specification text (every run of
consecutive whitespace characters becomes a single space); this definition
follows the words of the spec, for comparison with the code. -/
def collapse_ws_spec_aux : List Char → Bool → List Char
  | [], _ => []
  | c :: s, prev =>
    if isWs c then
      (if prev then collapse_ws_spec_aux s true
       else Char.ofNat 32 :: collapse_ws_spec_aux s true)
    else c :: collapse_ws_spec_aux s false

def collapse_ws_spec (s : String) : String := String.mk (collapse_ws_spec_aux s.data false)

/-! ### Data model of the per-record query processor (processar_cliente_api)

The persisted tables ClienteConsultado and ConsultaCliente are modelled as
lists of records; the Django primary key of ClienteConsultado is a surrogate
counter carried in the database state.  get_or_create is modelled exactly:
zero matches create the row from the defaults, one match returns it, and two
or more matches raise MultipleObjectsReturned, which the surrounding code
turns into the error branch (outer try) or swallows (inner try).  Timestamp
fields (data_criacao, data_atualizacao, data_consulta) are elided. -/

/-- One invoice object of the enrichment response (fields read by the code;
each is modelled raw, as an optional string, since dict.get may return None). -/
structure Fatura where
  id_fatura : Option String
  data_vencimento : Option String
  valor : Option String
  pix_copia_cola : Option String
  codigo_barras : Option String
  link : Option String
deriving DecidableEq

/-- The enrichment response dict: the faturas key may be absent, and the flag
outros records whether any other key is present (dict truthiness only). -/
structure DadosApi where
  faturas : Option (List Fatura)
  outros : Bool
deriving DecidableEq

/-- Python str applied to an optional value (str(None) is the text None). -/
def pyStrOpt : Option String → String
  | Option.none => "None"
  | some s => s

/-- Python truthiness of an optional string (None and the empty string are
falsy). -/
def pyTruthyStrOpt : Option String → Bool
  | Option.none => false
  | some s => !s.isEmpty

/-- Truthiness of the enrichment response (None and the empty dict are falsy). -/
def dadosTruthy : Option DadosApi → Bool
  | Option.none => false
  | some d => d.faturas.isSome || d.outros

/-- obter_fatura_por_id: first invoice whose id, through str, equals the
target id through str. -/
def obter_fatura_por_id (dados : Option DadosApi) (id_fatura : Option String) :
    Option Fatura :=
  match dados with
  | Option.none => Option.none
  | some d =>
    match d.faturas with
    | Option.none => Option.none
    | some fs => fs.find? (fun f => pyStrOpt f.id_fatura == pyStrOpt id_fatura)

def diasNoMes (m y : Nat) : Nat :=
  if m = 2 then (if (y % 4 = 0 ∧ y % 100 ≠ 0) ∨ y % 400 = 0 then 29 else 28)
  else if m = 4 ∨ m = 6 ∨ m = 9 ∨ m = 11 then 30 else 31

def parseNatL (s : List Char) : Nat :=
  s.foldl (fun acc c => acc * 10 + (c.toNat - 48)) 0

/-- converter_data_br_para_iso: strict strptime with format day月month/year
(one or two digit day and month, four digit year, calendar validated), then
strftime as an ISO date; any parse failure returns None. -/
def converter_data_br_para_iso (data_str : Option String) : Option String :=
  match data_str with
  | Option.none => Option.none
  | some s =>
    if s.isEmpty then Option.none
    else
      match s.split (fun c => c = Char.ofNat 47) with
      | [ds, ms, ys] =>
        let dl := ds.data
        let ml := ms.data
        let yl := ys.data
        if dl.all isAsciiDigit ∧ ml.all isAsciiDigit ∧ yl.all isAsciiDigit ∧
            1 ≤ dl.length ∧ dl.length ≤ 2 ∧ 1 ≤ ml.length ∧ ml.length ≤ 2 ∧
            yl.length = 4 then
          let d := parseNatL dl
          let m := parseNatL ml
          let y := parseNatL yl
          if 1 ≤ m ∧ m ≤ 12 ∧ 1 ≤ d ∧ d ≤ diasNoMes m y ∧ 1 ≤ y then
            some (pad4 y ++ "-" ++ pad2 m ++ "-" ++ pad2 d)
          else Option.none
        else Option.none
      | _ => Option.none

/-- normalizar_texto: upper case (the NFD diacritic folding is elided, it is
the identity on the ASCII inputs of the claims; the non-string branch is
unreachable at the modelled call sites, which always pass dict.get defaults). -/
def normalizar_texto (s : String) : String := String.map Char.toUpper s

/-- One row of the source SQL result, with the keys read by the processor
(codigo_cliente, id_fatura, nome_razaosocial, TelefoneCorrigido). -/
structure Row where
  codigo_cliente : Option String
  id_fatura : Option String
  nome_razaosocial : Option String
  telefoneCorrigido : Option String
deriving DecidableEq

/-- A persisted ClienteConsultado row. -/
structure Cliente where
  id : Nat
  codigo_cliente : Option String
  nome_razaosocial : String
  telefone_corrigido : String
  id_fatura : Option String
  vencimento_fatura : Option String
  valor_fatura : Option String
  pix : Option String
  codigo_barras : Option String
  link_boleto : Option String
  credencial_banco : Option Nat
deriving DecidableEq

/-- A persisted ConsultaCliente row, keyed by (execucao, cliente). -/
structure ConsultaClienteRow where
  execucao : Nat
  cliente : Nat
  dados_originais_sql : Row
  dados_api_response : Option DadosApi
  sucesso_api : Bool
  erro_api : Option String
deriving DecidableEq

/-- The persisted state touched by the processor. -/
structure Db where
  clientes : List Cliente
  consultas : List ConsultaClienteRow
  nextClienteId : Nat
deriving DecidableEq

/-- ClienteConsultado.objects.get_or_create: zero matches create from the
defaults, one match is returned, several matches raise (modelled as none). -/
def getOrCreateCliente (db : Db) (pred : Cliente → Bool) (novo : Nat → Cliente) :
    Db × Option Nat :=
  match db.clientes.filter pred with
  | [] =>
     ({ db with clientes := db.clientes ++ [novo db.nextClienteId],
                nextClienteId := db.nextClienteId + 1 }, some db.nextClienteId)
  | [c] => (db, some c.id)
  | _ => (db, Option.none)

/-- In-place field update of the cliente with the given primary key (save()). -/
def updateCliente (db : Db) (cid : Nat) (f : Cliente → Cliente) : Db :=
  { db with clientes := db.clientes.map (fun c => if c.id = cid then f c else c) }

def consultaKey (eid cid : Nat) (r : ConsultaClienteRow) : Bool :=
  r.execucao == eid && r.cliente == cid

/-- ConsultaCliente.objects.get_or_create followed, when the row already
existed, by overwriting its fields and saving; several matches raise
(modelled as none, turned into the enclosing except branch by the caller). -/
def upsertConsulta (db : Db) (eid cid : Nat) (defaults : ConsultaClienteRow)
    (escrever : ConsultaClienteRow → ConsultaClienteRow) : Option Db :=
  match db.consultas.filter (consultaKey eid cid) with
  | [] => some { db with consultas := db.consultas ++ [defaults] }
  | [_] =>
    some { db with
           consultas := db.consultas.map
             (fun r => if consultaKey eid cid r then escrever r else r) }
  | _ => Option.none

/-- The lookup predicate of the except branch (codigo alone, no credencial). -/
def clientePredErro (row : Row) : Cliente → Bool :=
  fun c => c.codigo_cliente == row.codigo_cliente

/-- The creation defaults of the except branch (credencial_banco is absent
from the defaults, hence None on the created row). -/
def clienteNovoErro (row : Row) : Nat → Cliente := fun i =>
  { id := i, codigo_cliente := row.codigo_cliente,
    nome_razaosocial :=
      (let n := normalizar_texto (row.nome_razaosocial.getD "")
       if n.isEmpty then "Nome nao disponivel" else n),
    telefone_corrigido := row.telefoneCorrigido.getD "",
    id_fatura := row.id_fatura,
    vencimento_fatura := Option.none, valor_fatura := Option.none,
    pix := Option.none, codigo_barras := Option.none,
    link_boleto := Option.none, credencial_banco := Option.none }

/-- The creation defaults of the failed ConsultaCliente row. -/
def consultaPadraoErro (row : Row) (eid cid : Nat) (msg : String) :
    ConsultaClienteRow :=
  { execucao := eid, cliente := cid, dados_originais_sql := row,
    dados_api_response := Option.none, sucesso_api := false,
    erro_api := some msg }

/-- The field overwrite applied when the failed row already existed. -/
def consultaEscreverErro (row : Row) (msg : String) :
    ConsultaClienteRow → ConsultaClienteRow := fun r =>
  { r with dados_originais_sql := row, sucesso_api := false,
           erro_api := some msg, dados_api_response := Option.none }

/-- The success-path lookup predicate: keyed by (codigo, credencial of run). -/
def clientePredSucesso (row : Row) (cred : Nat) : Cliente → Bool :=
  fun c => c.codigo_cliente == row.codigo_cliente &&
    c.credencial_banco == some cred

/-- The success-path creation defaults (credencial of the run attached). -/
def clienteNovoSucesso (row : Row) (cred : Nat) : Nat → Cliente := fun i =>
  { id := i, codigo_cliente := row.codigo_cliente,
    nome_razaosocial := normalizar_texto (row.nome_razaosocial.getD ""),
    telefone_corrigido := row.telefoneCorrigido.getD "",
    id_fatura := row.id_fatura,
    vencimento_fatura := Option.none, valor_fatura := Option.none,
    pix := Option.none, codigo_barras := Option.none,
    link_boleto := Option.none, credencial_banco := some cred }

/-- The invoice snapshot overwrite applied to the cliente on every pass. -/
def atualizarFatura (fatura : Fatura) : Cliente → Cliente := fun c =>
  { c with
    vencimento_fatura :=
      if pyTruthyStrOpt fatura.data_vencimento then
        converter_data_br_para_iso fatura.data_vencimento
      else fatura.data_vencimento,
    valor_fatura := fatura.valor,
    pix := fatura.pix_copia_cola,
    codigo_barras := fatura.codigo_barras,
    link_boleto := fatura.link }

/-- The creation defaults of the successful ConsultaCliente row. -/
def consultaPadraoSucesso (dados : Option DadosApi) (row : Row) (eid cid : Nat) :
    ConsultaClienteRow :=
  { execucao := eid, cliente := cid, dados_originais_sql := row,
    dados_api_response := dados, sucesso_api := true, erro_api := Option.none }

/-- The field overwrite applied when the successful row already existed. -/
def consultaEscreverSucesso (dados : Option DadosApi) (row : Row) :
    ConsultaClienteRow → ConsultaClienteRow := fun r =>
  { r with dados_originais_sql := row, dados_api_response := dados,
           sucesso_api := true, erro_api := Option.none }

/-- The cliente lookup or creation of the except branch: when no cliente is
at hand and the codigo is truthy, get_or_create BY CODIGO ALONE (neither the
filter nor the defaults mention credencial_banco, so a created row has
credencial_banco = None). -/
def clienteParaErro (db : Db) (row : Row) (clienteSoFar : Option Nat) :
    Db × Option Nat :=
  match clienteSoFar with
  | some cid => (db, some cid)
  | Option.none =>
    if pyTruthyStrOpt row.codigo_cliente then
      getOrCreateCliente db (clientePredErro row) (clienteNovoErro row)
    else (db, Option.none)

/-- The except branch of processar_cliente_api: best effort recording of the
failure; the failed ConsultaCliente row is upserted when a cliente is at
hand, and a secondary failure (several matching rows) is swallowed. -/
def registrarErro (db : Db) (row : Row) (eid : Nat) (clienteSoFar : Option Nat)
    (msg : String) : Db × Option Nat × Option String :=
  match clienteParaErro db row clienteSoFar with
  | (db1, Option.none) => (db1, Option.none, some msg)
  | (db1, some cid) =>
    match upsertConsulta db1 eid cid (consultaPadraoErro row eid cid msg)
        (consultaEscreverErro row msg) with
    | some db2 => (db2, Option.none, some msg)
    | Option.none => (db1, Option.none, some msg)

/-- processar_cliente_api: the success path consults the response (passed in,
since the network call is performed by the caller through the API client),
locates the invoice, upserts the cliente keyed by (codigo, credencial of the
run), overwrites the invoice snapshot, and upserts the (run, cliente) result
row; every failure goes through registrarErro.  Returns the new state, the
cliente id on success, and the error message on failure. -/
def processar_cliente_api (dados_cliente : Option DadosApi) (row : Row)
    (eid : Nat) (cred : Nat) (db : Db) : Db × Option Nat × Option String :=
  let codigo := row.codigo_cliente
  let idf := row.id_fatura
  if dadosTruthy dados_cliente = false then
    registrarErro db row eid Option.none
      "Falha ao consultar dados na API - resposta vazia ou erro de conexao"
  else
    match obter_fatura_por_id dados_cliente idf with
    | Option.none =>
      registrarErro db row eid Option.none
        ("Fatura " ++ pyStrOpt idf ++ " nao encontrada nos dados retornados pela API")
    | some fatura =>
      match codigo with
      | Option.none =>
        -- insert with a NULL codigo_cliente violates the NOT NULL column:
        -- IntegrityError, handled by the except branch
        registrarErro db row eid Option.none
          ("Erro ao processar cliente " ++ pyStrOpt codigo ++ ": IntegrityError")
      | some _ =>
        match getOrCreateCliente db (clientePredSucesso row cred)
            (clienteNovoSucesso row cred) with
        | (db1, Option.none) =>
          registrarErro db1 row eid Option.none
            ("Erro ao processar cliente " ++ pyStrOpt codigo ++ ": MultipleObjectsReturned")
        | (db1, some cid) =>
          let db2 := updateCliente db1 cid (atualizarFatura fatura)
          match upsertConsulta db2 eid cid
              (consultaPadraoSucesso dados_cliente row eid cid)
              (consultaEscreverSucesso dados_cliente row) with
          | some db3 => (db3, some cid, Option.none)
          | Option.none =>
            registrarErro db2 row eid (some cid)
              ("Erro ao processar cliente " ++ pyStrOpt codigo ++ ": MultipleObjectsReturned")

/-- The (execucao, cliente) keys of the result table. -/
def consultasKeys (db : Db) : List (Nat × Nat) :=
  db.consultas.map (fun r => (r.execucao, r.cliente))

/-- The uniqueness invariant of ConsultaCliente (unique_together on
execucao and cliente). -/
def ConsultasUnicas (db : Db) : Prop := (consultasKeys db).Nodup

/-! ### HubsoftAPI and the query run orchestrator (processar_consulta_completa)

The token fetch outcome and the per-code lookup outcomes come from an
environment; a run is single threaded, so the loop is a sequential fold.
External cancellation is modelled by the function cancelada, giving for every
check index (the one-based enumerate counter) whether the persisted status,
re-read by refresh_from_db at the top of the iteration, was set to cancelada
by the cancel endpoint.  The append-only log text and the fixed inter item
delay are elided. -/

structure ApiState where
  access_token : Option String
deriving DecidableEq

inductive LookupResult
  | ok (dados : DadosApi)
  | fail401
  | failOther

inductive QStatus
  | pendente
  | executando
  | concluida
  | cancelada
  | erro
deriving DecidableEq

structure RunEnv where
  rows : List Row
  tokenResult : Option String
  lookup : String → LookupResult
  cancelada : Nat → Bool

/-- The authenticated GET of consultar_cliente_financeiro; a 401 drops the
cached token (re-authentication happens on the NEXT call), any request
failure returns None. -/
def hubLookup (env : RunEnv) (st : ApiState) (codigo : String) :
    ApiState × Option DadosApi :=
  match env.lookup codigo with
  | LookupResult.ok d => (st, some d)
  | LookupResult.fail401 => ({ access_token := Option.none }, Option.none)
  | LookupResult.failOther => (st, Option.none)

/-- consultar_cliente_financeiro: _ensure_token runs inside the try block, so
a failing token fetch (network error, or a response without access_token) is
caught by the same except clauses and the call returns None. -/
def consultar_cliente_financeiro (env : RunEnv) (st : ApiState) (codigo : String) :
    ApiState × Option DadosApi :=
  match st.access_token with
  | some _ => hubLookup env st codigo
  | Option.none =>
    match env.tokenResult with
    | Option.none => (st, Option.none)
    | some t => hubLookup env { access_token := some t } codigo

/-- The persisted ConsultaExecucao fields the orchestrator writes. -/
structure ExecPersist where
  status : QStatus
  total_registros_sql : Nat
  total_consultados_api : Nat
  total_erros : Nat
  data_fim : Bool
deriving DecidableEq

/-- One loop iteration body: consult the API for the codigo of the row and run
processar_cliente_api; the boolean reports the success of the item. -/
def stepItem (env : RunEnv) (eid cred : Nat) (st : ApiState) (db : Db) (r : Row) :
    ApiState × Db × Bool :=
  let consulta := consultar_cliente_financeiro env st (pyStrOpt r.codigo_cliente)
  let resultado := processar_cliente_api consulta.2 r eid cred db
  (consulta.1, resultado.1, resultado.2.1.isSome)

/-- Pure fold of the loop body over a list of rows (used to state which prefix
of the source rows a cancelled run has processed). -/
def processRows (env : RunEnv) (eid cred : Nat) :
    List Row → ApiState → Db → ApiState × Db
  | [], st, db => (st, db)
  | r :: rest, st, db =>
    let passo := stepItem env eid cred st db r
    processRows env eid cred rest passo.1 passo.2.1

/-- The per-item loop of processar_consulta_completa: before each item the
persisted status is re-read and the loop returns on cancelada; counters are
flushed to storage every 10 items; on normal completion the final counters
are persisted and the run is marked concluida (with end timestamp). -/
def loopConsulta (env : RunEnv) (eid cred : Nat) :
    Nat → List Row → ApiState → Db → Nat → Nat → ExecPersist → ExecPersist × Db
  | _, [], _, db, proc, err, pers =>
    ({ pers with status := QStatus.concluida, total_consultados_api := proc,
                 total_erros := err, data_fim := true }, db)
  | i, r :: rest, st, db, proc, err, pers =>
    if env.cancelada i then
      ({ pers with status := QStatus.cancelada, data_fim := true }, db)
    else
      let passo := stepItem env eid cred st db r
      let proc2 := if passo.2.2 then proc + 1 else proc
      let err2 := if passo.2.2 then err else err + 1
      let pers2 := if i % 10 = 0 then
          { pers with total_consultados_api := proc2, total_erros := err2 }
        else pers
      loopConsulta env eid cred (i + 1) rest passo.1 passo.2.1 proc2 err2 pers2

/-- processar_consulta_completa: mark the run executando, record the row
count, terminate with erro on an empty result, otherwise create a fresh API
client (no cached token) and run the loop from item 1. -/
def processar_consulta_completa (env : RunEnv) (eid cred : Nat) (db : Db) :
    ExecPersist × Db :=
  let pers0 : ExecPersist :=
    { status := QStatus.executando, total_registros_sql := env.rows.length,
      total_consultados_api := 0, total_erros := 0, data_fim := false }
  if env.rows.isEmpty then
    ({ pers0 with status := QStatus.erro, data_fim := true }, db)
  else
    loopConsulta env eid cred 1 env.rows { access_token := Option.none } db 0 0 pers0

/-! ### Messaging dispatch (processar_envio_hsm_background)

The loop iterates the freshly created EnvioHSMIndividual rows; before each
item the persisted MessagingRun status is re-read (function statusAt of the
environment) and the loop breaks on cancelado; the Matrix call outcome per
item comes from the environment.  Aggregate counters are flushed every 5
items; after the loop the final counters and the terminal status concluido
are saved only when the in-memory status is not cancelado. -/

inductive MStatus
  | pendente
  | enviando
  | concluido
  | cancelado
  | erro
  | pausado
deriving DecidableEq

inductive IStatus
  | pendente
  | enviando
  | enviado
  | erro
  | cancelado
deriving DecidableEq

inductive TemplateUsado
  | principal
  | contingencia
deriving DecidableEq

/-- A persisted EnvioHSMIndividual row (data_envio elided). -/
structure EnvioInd where
  cliente : Nat
  status : IStatus
  resposta_api : Option String
  erro_detalhado : Option String
  template_usado : TemplateUsado
  tentativas : Nat
  variaveis_utilizadas : List (String × String)
deriving DecidableEq

/-- The persisted EnvioHSMMatrix fields the dispatcher writes. -/
structure EnvioPersist where
  status_envio : MStatus
  total_clientes : Nat
  total_enviados : Nat
  total_erros : Nat
  total_pendentes : Nat
  data_inicio : Bool
  data_fim : Bool
deriving DecidableEq

/-- Outcome of one enviar_hsm_matrix_django call (ok carries the optional
response data; fail carries the error text and optional partial data; exn is
an unexpected exception inside the item body). -/
inductive SendOutcome
  | ok (data : Option String)
  | fail (err : String) (data : Option String)
  | exn (msg : String)

structure EnvioEnv where
  statusAt : Nat → MStatus
  sendAt : Nat → SendOutcome

/-- The template and variable mapping configuration of an EnvioHSMMatrix. -/
structure EnvioSetup where
  configuracao_variaveis : List (String × String)
  tem_contingencia : Bool
  configuracao_variaveis_contingencia : List (String × String)

/-- The dados_cliente dict built from the ClienteConsultado fields before
bulk creating the individual rows (Python values, fed to the serializer). -/
structure ClienteDados where
  nome_razaosocial : PyValue
  codigo_cliente : PyValue
  telefone_corrigido : PyValue
  valor_fatura : PyValue
  vencimento_fatura : PyValue
  codigo_barras : PyValue
  pix : PyValue
  link_boleto : PyValue
  id_fatura : PyValue

/-- mapear_campos_cliente_para_hsm: the fixed field map, every value through
the JSON safe serializer. -/
def mapear_campos_cliente_para_hsm (d : ClienteDados) : List (String × String) :=
  [("nome_cliente", serializar_valor_para_json d.nome_razaosocial),
   ("codigo_cliente", serializar_valor_para_json d.codigo_cliente),
   ("telefone", serializar_valor_para_json d.telefone_corrigido),
   ("valor_fatura", serializar_valor_para_json d.valor_fatura),
   ("vencimento_fatura", serializar_valor_para_json d.vencimento_fatura),
   ("codigo_barras", serializar_valor_para_json d.codigo_barras),
   ("pix_copia_cola", serializar_valor_para_json d.pix),
   ("link_boleto", serializar_valor_para_json d.link_boleto),
   ("id_fatura", serializar_valor_para_json d.id_fatura)]

/-- dict.get with a default, over an association list. -/
def dictGetD (d : List (String × String)) (k : String) (dflt : String) : String :=
  match d.find? (fun kv => kv.1 == k) with
  | some kv => kv.2
  | Option.none => dflt

/-- verificar_variaveis_vazias: some mapped client field is empty (None, the
empty string, or whitespace only); the first parameter is unused by the code. -/
def verificar_variaveis_vazias (_variaveis_hsm : Option Unit)
    (config : List (String × String)) (dados : List (String × String)) : Bool :=
  config.any (fun kv =>
    let valor := dictGetD dados kv.2 ""
    valor.isEmpty || (pyStripStr valor).isEmpty)

/-- Template choice per item: with a configured primary mapping whose required
fields have gaps, and a configured fallback template with its own mapping,
switch to the fallback; otherwise stay on the primary. -/
def selecionarTemplate (setup : EnvioSetup) (vars : List (String × String)) :
    TemplateUsado :=
  if !setup.configuracao_variaveis.isEmpty then
    if verificar_variaveis_vazias Option.none setup.configuracao_variaveis vars then
      if setup.tem_contingencia ∧ !setup.configuracao_variaveis_contingencia.isEmpty then
        TemplateUsado.contingencia
      else TemplateUsado.principal
    else TemplateUsado.principal
  else TemplateUsado.principal

/-- Resolve the chosen mapping into the flat variables dict sent to the API. -/
def montarVariaveis (config : List (String × String))
    (vars : List (String × String)) : List (String × String) :=
  config.map (fun kv => (kv.1, dictGetD vars kv.2 ""))

/-- EnvioHSMIndividual.marcar_enviado (a falsy response payload is not stored). -/
def marcar_enviado (ind : EnvioInd) (resposta : Option String) : EnvioInd :=
  { ind with status := IStatus.enviado,
             resposta_api := match resposta with
               | some r => some r
               | Option.none => ind.resposta_api }

/-- EnvioHSMIndividual.marcar_erro (increments the retry counter). -/
def marcar_erro (ind : EnvioInd) (erro : String) (resposta : Option String) : EnvioInd :=
  { ind with status := IStatus.erro, erro_detalhado := some erro,
             tentativas := ind.tentativas + 1,
             resposta_api := match resposta with
               | some r => some r
               | Option.none => ind.resposta_api }

/-- The dispatch loop.  Returns the individual rows (processed prefix updated,
remaining rows untouched after a break), the in-memory sent and error
counters, the counters as last flushed to storage, and the last refreshed
in-memory run status. -/
def loopEnvio (env : EnvioEnv) (setup : EnvioSetup) (total : Nat) :
    Nat → List EnvioInd → Nat → Nat → (Nat × Nat × Nat) → MStatus →
      List EnvioInd × Nat × Nat × (Nat × Nat × Nat) × MStatus
  | _, [], envc, errc, flushed, inMem => ([], envc, errc, flushed, inMem)
  | idx, ind :: rest, envc, errc, flushed, _inMem =>
    let lido := env.statusAt idx
    if lido = MStatus.cancelado then
      (ind :: rest, envc, errc, flushed, lido)
    else
      let ind1 : EnvioInd := { ind with status := IStatus.enviando }
      let usar := selecionarTemplate setup ind1.variaveis_utilizadas
      let config := if usar = TemplateUsado.contingencia then
          setup.configuracao_variaveis_contingencia
        else setup.configuracao_variaveis
      let ind2 : EnvioInd := { ind1 with template_usado := usar }
      let _hsm := montarVariaveis config ind2.variaveis_utilizadas
      let resultado :=
        match env.sendAt idx with
        | SendOutcome.ok data => (marcar_enviado ind2 data, true)
        | SendOutcome.fail e data => (marcar_erro ind2 e data, false)
        | SendOutcome.exn m => (marcar_erro ind2 ("Erro inesperado: " ++ m) Option.none, false)
      let envc2 := if resultado.2 then envc + 1 else envc
      let errc2 := if resultado.2 then errc else errc + 1
      let flushed2 := if (envc2 + errc2) % 5 = 0 then (envc2, errc2, total - envc2 - errc2)
        else flushed
      let resto := loopEnvio env setup total (idx + 1) rest envc2 errc2 flushed2 lido
      (resultado.1 :: resto.1, resto.2)

/-- processar_envio_hsm_background: mark the run enviando (idempotent start
timestamp), count the eligible clients, bail out with erro when there are
none, bulk create one pendente individual row per client, run the loop, and
finally persist the totals with terminal status concluido unless the
in-memory status is cancelado (then nothing more is saved: the persisted
totals stay at the last flush and the status stays cancelado). -/
def processar_envio_hsm_background (env : EnvioEnv) (setup : EnvioSetup)
    (clientes : List (Nat × ClienteDados)) : EnvioPersist × List EnvioInd :=
  let total := clientes.length
  let pers0 : EnvioPersist :=
    { status_envio := MStatus.enviando, total_clientes := total,
      total_enviados := 0, total_erros := 0, total_pendentes := 0,
      data_inicio := true, data_fim := false }
  if total = 0 then
    ({ pers0 with status_envio := MStatus.erro, data_fim := true }, [])
  else
    let inds := clientes.map (fun cd =>
      ({ cliente := cd.1, status := IStatus.pendente, resposta_api := Option.none,
         erro_detalhado := Option.none, template_usado := TemplateUsado.principal,
         tentativas := 0,
         variaveis_utilizadas := mapear_campos_cliente_para_hsm cd.2 } : EnvioInd))
    let resultado := loopEnvio env setup total 0 inds 0 0 (0, 0, 0) MStatus.enviando
    let envc := resultado.2.1
    let errc := resultado.2.2.1
    let flushed := resultado.2.2.2.1
    let inMem := resultado.2.2.2.2
    if inMem ≠ MStatus.cancelado then
      let persFinal : EnvioPersist :=
        { pers0 with status_envio := MStatus.concluido, total_enviados := envc,
                     total_erros := errc, total_pendentes := total - envc - errc,
                     data_fim := true }
      (persFinal, resultado.1)
    else
      let persFinal : EnvioPersist :=
        { pers0 with status_envio := MStatus.cancelado, total_enviados := flushed.1,
                     total_erros := flushed.2.1, total_pendentes := flushed.2.2 }
      (persFinal, resultado.1)

/-! ### Concrete fixtures used by witnesses and counterexamples -/

def dbVazio : Db := { clientes := [], consultas := [], nextClienteId := 0 }

def rowUm : Row :=
  { codigo_cliente := some "1", id_fatura := some "10",
    nome_razaosocial := some "Ana", telefoneCorrigido := some "1191" }

def rowDois : Row :=
  { codigo_cliente := some "2", id_fatura := some "20",
    nome_razaosocial := some "Bia", telefoneCorrigido := some "1192" }

def faturaDe (c : String) : Fatura :=
  { id_fatura := some (c ++ "0"), data_vencimento := some "05/03/2024",
    valor := some "10.50", pix_copia_cola := some "PX",
    codigo_barras := some "CB", link := some "L" }

def dadosDe (c : String) : DadosApi := { faturas := some [faturaDe c], outros := true }

def envTokenFalha : RunEnv :=
  { rows := [rowUm, rowDois], tokenResult := Option.none,
    lookup := fun _ => LookupResult.failOther, cancelada := fun _ => false }

def envCancelaEm2 : RunEnv :=
  { rows := [rowUm, rowDois], tokenResult := some "tok",
    lookup := fun c => LookupResult.ok (dadosDe c),
    cancelada := fun j => decide (2 ≤ j) }

def clienteDadosEx : ClienteDados :=
  { nome_razaosocial := PyValue.str "ANA", codigo_cliente := PyValue.str "1",
    telefone_corrigido := PyValue.str "1191", valor_fatura := PyValue.none,
    vencimento_fatura := PyValue.date 5 3 2024, codigo_barras := PyValue.str "CB",
    pix := PyValue.str "PX", link_boleto := PyValue.str "L",
    id_fatura := PyValue.str "10" }

def setupEx : EnvioSetup :=
  { configuracao_variaveis := [("1", "nome_cliente"), ("2", "valor_fatura")],
    tem_contingencia := true,
    configuracao_variaveis_contingencia := [("1", "nome_cliente")] }

def envEnvioComErro : EnvioEnv :=
  { statusAt := fun _ => MStatus.enviando,
    sendAt := fun i => if i == 0 then SendOutcome.fail "erro de rede" Option.none
      else SendOutcome.ok (some "OK") }

def envEnvioCancela1 : EnvioEnv :=
  { statusAt := fun i => if i == 1 then MStatus.cancelado else MStatus.enviando,
    sendAt := fun _ => SendOutcome.ok (some "OK") }

/-- Each name twice: at a placeholder both the padded plain pattern and the
relaxed exact pattern produce the same group. -/
def dupNames : List (List Char) → List (List Char)
  | [] => []
  | n :: t => n :: n :: dupNames t

/-- A shaped example template: SELECT {{a}} FROM t WHERE x = {{b}}. -/
def lItemEx : List Item :=
  [Item.txt ("SELECT ".data), Item.ph ("a".data),
   Item.txt (" FROM t WHERE x = ".data), Item.ph ("b".data)]

/-! ## Theorems -/

/-! Character-class facts used by the template-engine theorems. -/

theorem char_toNat_ofNat_le (n : Nat) (h : n ≤ 122) : (Char.ofNat n).toNat = n := by
  unfold Char.ofNat
  rw [dif_pos (by left; omega : n.isValidChar)]
  rfl

theorem identChar_ranges (c : Char) (h : isIdentChar c = true) :
    (97 ≤ c.toNat ∧ c.toNat ≤ 122) ∨ (65 ≤ c.toNat ∧ c.toNat ≤ 90) ∨
    (48 ≤ c.toNat ∧ c.toNat ≤ 57) ∨ c.toNat = 95 := by
  simp only [isIdentChar, isAsciiLetter, isAsciiDigit, Bool.or_eq_true,
    Bool.and_eq_true, decide_eq_true_eq] at h
  rcases h with ((⟨h1, h2⟩ | ⟨h1, h2⟩) | ⟨h1, h2⟩) | h1
  · exact Or.inl ⟨h1, h2⟩
  · exact Or.inr (Or.inl ⟨h1, h2⟩)
  · exact Or.inr (Or.inr (Or.inl ⟨h1, h2⟩))
  · subst h1
    exact Or.inr (Or.inr (Or.inr rfl))

theorem identStart_identChar (c : Char) (h : isIdentStart c = true) :
    isIdentChar c = true := by
  simp only [isIdentStart, Bool.or_eq_true] at h
  simp only [isIdentChar, Bool.or_eq_true]
  rcases h with h | h
  · exact Or.inl (Or.inl h)
  · exact Or.inr h

theorem toLower_toNat (c : Char) : (c.toLower).toNat =
    if 65 ≤ c.toNat ∧ c.toNat ≤ 90 then c.toNat + 32 else c.toNat := by
  unfold Char.toLower
  split
  next h =>
    rw [if_pos ⟨h.1, h.2⟩, char_toNat_ofNat_le (c.toNat + 32) (by omega)]
  next h =>
    rw [if_neg h]

theorem identChar_toLower_le (c : Char) (h : isIdentChar c = true) :
    (c.toLower).toNat ≤ 122 := by
  rw [toLower_toNat]
  rcases identChar_ranges c h with ⟨h1, h2⟩ | ⟨h1, h2⟩ | ⟨h1, h2⟩ | h1 <;>
    split <;> omega

theorem identChar_ciEq_rbrace (c : Char) (h : isIdentChar c = true) :
    ciEq c rbrace = false := by
  simp only [ciEq, decide_eq_false_iff_not]
  intro heq
  have h1 := identChar_toLower_le c h
  have h2 : (rbrace.toLower).toNat = 125 := by decide
  rw [heq, h2] at h1
  omega

theorem identChar_ciEq_lbrace (c : Char) (h : isIdentChar c = true) :
    ciEq c lbrace = false := by
  simp only [ciEq, decide_eq_false_iff_not]
  intro heq
  have h1 := identChar_toLower_le c h
  have h2 : (lbrace.toLower).toNat = 123 := by decide
  rw [heq, h2] at h1
  omega

theorem identChar_ne_lbrace (c : Char) (h : isIdentChar c = true) :
    ¬ c = lbrace := by
  intro heq
  subst heq
  exact absurd h (by decide)

theorem identChar_ne_rbrace (c : Char) (h : isIdentChar c = true) :
    ¬ c = rbrace := by
  intro heq
  subst heq
  exact absurd h (by decide)

theorem identChar_not_ws (c : Char) (h : isIdentChar c = true) :
    isWs c = false := by
  cases hw : isWs c with
  | false => rfl
  | true =>
    exfalso
    simp only [isWs, Bool.or_eq_true, decide_eq_true_eq] at hw
    rcases hw with ((((hw | hw) | hw) | hw) | hw) | hw <;>
      (subst hw; exact absurd h (by decide))

theorem ciEq_refl (c : Char) : ciEq c c = true := by
  simp [ciEq]

theorem ciListEq_refl : ∀ n : List Char, ciListEq n n = true
  | [] => rfl
  | c :: r => by simp [ciListEq, ciEq_refl, ciListEq_refl r]

/-- Case-insensitive word equality is equality of the lowered spellings. -/
theorem ciListEq_iff_map : ∀ k n : List Char,
    ciListEq k n = true ↔ k.map Char.toLower = n.map Char.toLower := by
  intro k
  induction k with
  | nil =>
    intro n
    cases n <;> simp [ciListEq]
  | cons a as ih =>
    intro n
    cases n with
    | nil => simp [ciListEq]
    | cons b bs =>
      simp [ciListEq, ciEq, ih bs, Bool.and_eq_true]

theorem litCi_le : ∀ (n s r : List Char), litCi n s = some r → r.length ≤ s.length := by
  intro n
  induction n with
  | nil =>
    intro s r h
    simp only [litCi, Option.some.injEq] at h
    simp [h]
  | cons c cs ih =>
    intro s r h
    cases s with
    | nil => simp [litCi] at h
    | cons d ds =>
      simp only [litCi] at h
      split at h
      · exact Nat.le_succ_of_le (ih ds r h)
      · exact absurd h (by simp)

theorem matchExact_lt : ∀ (n s r : List Char), matchExact n s = some r →
    r.length < s.length := by
  intro n s r h
  cases s with
  | nil => simp [matchExact] at h
  | cons c1 t =>
    cases t with
    | nil => simp [matchExact] at h
    | cons c2 s1 =>
      simp only [matchExact] at h
      split at h
      · split at h
        next s2 hl =>
          have h2 := litCi_le n s1 s2 hl
          split at h
          next d1 d2 s3 =>
            split at h
            · cases h
              simp only [List.length_cons] at h2 ⊢
              omega
            · exact absurd h (by simp)
          next => exact absurd h (by simp)
        next => exact absurd h (by simp)
      · exact absurd h (by simp)

theorem padTry_le : ∀ (n s1 r : List Char) (a : Nat), padTry n s1 a = some r →
    r.length + 2 ≤ s1.length := by
  intro n s1 r a h
  simp only [padTry] at h
  split at h
  next s2 hl =>
    have h2 := litCi_le n (s1.drop a) s2 hl
    have h3 : (s2.drop (wsCount s2)).length ≤ s2.length := by
      simp
    have h4 : (s1.drop a).length ≤ s1.length := by
      simp
    split at h
    next d1 d2 s4 hd =>
      split at h
      · cases h
        rw [hd] at h3
        simp only [List.length_cons] at h3
        omega
      · exact absurd h (by simp)
    next => exact absurd h (by simp)
  next => exact absurd h (by simp)

theorem padSearch_le : ∀ (a : Nat) (n s1 r : List Char), padSearch n s1 a = some r →
    r.length + 2 ≤ s1.length := by
  intro a
  induction a with
  | zero => intro n s1 r h; exact padTry_le n s1 r 0 h
  | succ a ih =>
    intro n s1 r h
    simp only [padSearch] at h
    cases hp : padTry n s1 (a + 1) with
    | some r2 => rw [hp] at h; cases h; exact padTry_le n s1 r (a + 1) hp
    | none => rw [hp] at h; exact ih n s1 r h

theorem matchPadded_lt : ∀ (n s r : List Char), matchPadded n s = some r →
    r.length < s.length := by
  intro n s r h
  cases s with
  | nil => simp [matchPadded] at h
  | cons c1 t =>
    cases t with
    | nil => simp [matchPadded] at h
    | cons c2 s1 =>
      simp only [matchPadded] at h
      split at h
      · have := padSearch_le (wsCount s1) n s1 r h
        simp only [List.length_cons]
        omega
      · exact absurd h (by simp)

theorem replaceAllF_fuel2 (m : List Char → Option (List Char)) (v : List Char)
    (hm : ∀ s r, m s = some r → r.length < s.length) :
    ∀ (f g : Nat) (s : List Char), s.length ≤ f → s.length ≤ g →
      replaceAllF m v f s = replaceAllF m v g s := by
  intro f
  induction f with
  | zero =>
    intro g s hf hg
    cases s with
    | nil => cases g <;> rfl
    | cons c t => simp at hf
  | succ f ih =>
    intro g s hf hg
    cases s with
    | nil => cases g <;> rfl
    | cons c t =>
      simp only [List.length_cons] at hf hg
      cases g with
      | zero => omega
      | succ g =>
        simp only [replaceAllF]
        cases hmc : m (c :: t) with
        | some r =>
          have hr := hm (c :: t) r hmc
          simp only [List.length_cons] at hr
          simp only [hmc]
          rw [ih g r (by omega) (by omega)]
        | none =>
          simp only [hmc]
          rw [ih g t (by omega) (by omega)]

theorem replaceAllF_fuel (m : List Char → Option (List Char)) (v : List Char)
    (hm : ∀ s r, m s = some r → r.length < s.length)
    (f : Nat) (s : List Char) (h : s.length ≤ f) :
    replaceAllF m v f s = replaceAllF m v s.length s :=
  replaceAllF_fuel2 m v hm f s.length s h (Nat.le_refl _)

theorem replaceAll_cons (m : List Char → Option (List Char)) (v : List Char)
    (hm : ∀ s r, m s = some r → r.length < s.length) (c : Char) (s : List Char) :
    replaceAll m v (c :: s) =
      match m (c :: s) with
      | some r => v ++ replaceAll m v r
      | none => c :: replaceAll m v s := by
  simp only [replaceAll, List.length_cons, replaceAllF]
  cases hmc : m (c :: s) with
  | some r =>
    have hr := hm (c :: s) r hmc
    simp only [List.length_cons] at hr
    simp only [hmc]
    rw [replaceAllF_fuel m v hm s.length r (by omega)]
  | none => simp only [hmc]

theorem replaceAll_nil (m : List Char → Option (List Char)) (v : List Char) :
    replaceAll m v [] = [] := rfl

/-! The matchers on a shaped placeholder. -/

theorem identOk_all (n : List Char) (h : identOk n = true) :
    n.all isIdentChar = true := by
  cases n with
  | nil => exact absurd h (by simp [identOk])
  | cons c r =>
    simp only [identOk, Bool.and_eq_true] at h
    simp only [List.all_cons, Bool.and_eq_true]
    exact ⟨identStart_identChar c h.1, h.2⟩

theorem identOk_head (n : List Char) (h : identOk n = true) :
    ∃ c r, n = c :: r ∧ isIdentStart c = true ∧ r.all isIdentChar = true := by
  cases n with
  | nil => exact absurd h (by simp [identOk])
  | cons c r =>
    simp only [identOk, Bool.and_eq_true] at h
    exact ⟨c, r, rfl, h.1, h.2⟩

/-- Where the case-insensitive literal ends up inside an identifier
placeholder body: a full match right before the closing braces, a failure, or
a partial match whose continuation starts with an identifier character. -/
theorem litCi_ident_cases (tail : List Char) : ∀ (k n : List Char),
    k.all isIdentChar = true → n.all isIdentChar = true →
    (ciListEq k n = true ∧
      litCi k (n ++ rbrace :: rbrace :: tail) =
        some (rbrace :: rbrace :: tail)) ∨
    (ciListEq k n = false ∧ litCi k (n ++ rbrace :: rbrace :: tail) = none) ∨
    (ciListEq k n = false ∧ ∃ c s3, isIdentChar c = true ∧
      litCi k (n ++ rbrace :: rbrace :: tail) = some (c :: s3)) := by
  intro k
  induction k with
  | nil =>
    intro n hk hn
    cases n with
    | nil => exact Or.inl ⟨rfl, rfl⟩
    | cons b bs =>
      simp only [List.all_cons, Bool.and_eq_true] at hn
      exact Or.inr (Or.inr ⟨rfl, b, bs ++ rbrace :: rbrace :: tail, hn.1, rfl⟩)
  | cons a as ih =>
    intro n hk hn
    simp only [List.all_cons, Bool.and_eq_true] at hk
    cases n with
    | nil =>
      refine Or.inr (Or.inl ⟨rfl, ?_⟩)
      simp only [List.nil_append, litCi, identChar_ciEq_rbrace a hk.1]
      rfl
    | cons b bs =>
      simp only [List.all_cons, Bool.and_eq_true] at hn
      cases hab : ciEq a b with
      | true =>
        have hstep : litCi (a :: as) ((b :: bs) ++ rbrace :: rbrace :: tail) =
            litCi as (bs ++ rbrace :: rbrace :: tail) := by
          simp [litCi, hab]
        rcases ih bs hk.2 hn.2 with ⟨h1, h2⟩ | ⟨h1, h2⟩ | ⟨h1, c, s3, hc, h2⟩
        · exact Or.inl ⟨by simp [ciListEq, hab, h1], by rw [hstep, h2]⟩
        · exact Or.inr (Or.inl ⟨by simp [ciListEq, hab, h1],
            by rw [hstep, h2]⟩)
        · exact Or.inr (Or.inr ⟨by simp [ciListEq, hab, h1], c, s3, hc,
            by rw [hstep, h2]⟩)
      | false =>
        refine Or.inr (Or.inl ⟨by simp [ciListEq, hab], ?_⟩)
        simp [litCi, hab]

theorem phOf_cons (n tail : List Char) :
    phOf n ++ tail = lbrace :: lbrace :: (n ++ rbrace :: rbrace :: tail) := by
  simp [phOf]

/-- The exact pattern at an identifier placeholder matches exactly when the
variable name is case-insensitively equal to the placeholder name, and then
consumes exactly the placeholder. -/
theorem matchExact_ph (k n tail : List Char) (hk : identOk k = true)
    (hn : identOk n = true) :
    matchExact k (phOf n ++ tail) =
      if ciListEq k n then some tail else none := by
  rw [phOf_cons]
  simp only [matchExact]
  rw [if_pos ⟨trivial, trivial⟩]
  rcases litCi_ident_cases tail k n (identOk_all k hk) (identOk_all n hn) with
    ⟨h1, h2⟩ | ⟨h1, h2⟩ | ⟨h1, c, s3, hc, h2⟩
  · rw [h2, h1]
    simp
  · rw [h2, h1]
    simp
  · rw [h2, h1]
    cases s3 with
    | nil => simp
    | cons d s3t =>
      simp only [Bool.false_eq_true, if_false]
      rw [if_neg (fun hh => identChar_ne_rbrace c hc hh.1)]

theorem wsCount_cons_false (c : Char) (s : List Char) (h : isWs c = false) :
    wsCount (c :: s) = 0 := by
  simp [wsCount, List.takeWhile_cons, h]

/-- The padded pattern agrees with the exact pattern at an identifier
placeholder (the whitespace runs are empty there). -/
theorem matchPadded_ph (k n tail : List Char) (hk : identOk k = true)
    (hn : identOk n = true) :
    matchPadded k (phOf n ++ tail) =
      if ciListEq k n then some tail else none := by
  rw [phOf_cons]
  simp only [matchPadded]
  rw [if_pos ⟨trivial, trivial⟩]
  obtain ⟨c0, r0, hn0, hstart, hrall⟩ := identOk_head n hn
  have hws : wsCount (n ++ rbrace :: rbrace :: tail) = 0 := by
    rw [hn0]
    exact wsCount_cons_false c0 _
      (identChar_not_ws c0 (identStart_identChar c0 hstart))
  rw [hws]
  simp only [padSearch, padTry, List.drop_zero]
  rcases litCi_ident_cases tail k n (identOk_all k hk) (identOk_all n hn) with
    ⟨h1, h2⟩ | ⟨h1, h2⟩ | ⟨h1, c, s3, hc, h2⟩
  · rw [h2, h1]
    have hws2 : wsCount (rbrace :: rbrace :: tail) = 0 :=
      wsCount_cons_false _ _ (by decide)
    simp [hws2]
  · rw [h2, h1]
    simp
  · rw [h2, h1]
    have hws2 : wsCount (c :: s3) = 0 :=
      wsCount_cons_false _ _ (identChar_not_ws c hc)
    dsimp only
    rw [hws2]
    simp only [List.drop_zero, Bool.false_eq_true, if_false]
    cases s3 with
    | nil => rfl
    | cons d s3t =>
      dsimp only
      rw [if_neg (fun hh => identChar_ne_rbrace c hc hh.1)]

theorem matchExact_fail1 (k : List Char) (c : Char) (s : List Char)
    (h : ¬ c = lbrace) : matchExact k (c :: s) = none := by
  cases s with
  | nil => rfl
  | cons c2 t =>
    simp only [matchExact]
    rw [if_neg (fun hh => h hh.1)]

theorem matchExact_fail2 (k : List Char) (c : Char) (s : List Char)
    (h : ¬ c = lbrace) : matchExact k (lbrace :: c :: s) = none := by
  simp only [matchExact]
  rw [if_neg (fun hh => h hh.2)]

theorem matchPadded_fail1 (k : List Char) (c : Char) (s : List Char)
    (h : ¬ c = lbrace) : matchPadded k (c :: s) = none := by
  cases s with
  | nil => rfl
  | cons c2 t =>
    simp only [matchPadded]
    rw [if_neg (fun hh => h hh.1)]

theorem matchPadded_fail2 (k : List Char) (c : Char) (s : List Char)
    (h : ¬ c = lbrace) : matchPadded k (lbrace :: c :: s) = none := by
  simp only [matchPadded]
  rw [if_neg (fun hh => h hh.2)]

/-! Walking replace-all over a shaped text. -/

theorem replaceAll_match_ne (m : List Char → Option (List Char)) (v : List Char)
    (hm : ∀ s r, m s = some r → r.length < s.length) (s r : List Char)
    (hs : s ≠ []) (h : m s = some r) :
    replaceAll m v s = v ++ replaceAll m v r := by
  cases s with
  | nil => exact absurd rfl hs
  | cons c t =>
    rw [replaceAll_cons m v hm c t, h]

theorem replaceAll_skip (m : List Char → Option (List Char)) (v : List Char)
    (hm : ∀ s r, m s = some r → r.length < s.length) :
    ∀ (t rest : List Char),
      (∀ t', t' <:+ t → t' ≠ [] → m (t' ++ rest) = none) →
      replaceAll m v (t ++ rest) = t ++ replaceAll m v rest := by
  intro t
  induction t with
  | nil =>
    intro rest _
    simp
  | cons c ct ih =>
    intro rest h
    have h0 : m (c :: (ct ++ rest)) = none :=
      h (c :: ct) (List.suffix_refl _) (by simp)
    rw [List.cons_append, replaceAll_cons m v hm, h0,
      ih rest (fun t2 ht2 hne => h t2 (ht2.trans (List.suffix_cons c ct)) hne)]
    rfl

theorem suffix_fail_txt (m : List Char → Option (List Char))
    (hfst : ∀ (c : Char) (s : List Char), ¬ c = lbrace → m (c :: s) = none)
    (t rest : List Char) (ht : braceFree t = true) :
    ∀ t', t' <:+ t → t' ≠ [] → m (t' ++ rest) = none := by
  intro t2 hsuf hne
  cases t2 with
  | nil => exact absurd rfl hne
  | cons c tt =>
    have hc : c ∈ t := hsuf.subset (by simp)
    have hcne : ¬ c = lbrace := by
      simp only [braceFree, List.all_eq_true, Bool.and_eq_true,
        Bool.not_eq_true', decide_eq_false_iff_not] at ht
      exact (ht c hc).1
    exact hfst c (tt ++ rest) hcne

theorem suffix_fail_ph (m : List Char → Option (List Char))
    (hfst : ∀ (c : Char) (s : List Char), ¬ c = lbrace → m (c :: s) = none)
    (hsnd : ∀ (c : Char) (s : List Char), ¬ c = lbrace →
      m (lbrace :: c :: s) = none)
    (n rest : List Char) (hn : identOk n = true)
    (h0 : m (phOf n ++ rest) = none) :
    ∀ t', t' <:+ phOf n → t' ≠ [] → m (t' ++ rest) = none := by
  intro t2 hsuf hne
  rcases List.suffix_cons_iff.mp hsuf with heq | hsuf2
  · rw [heq]
    exact h0
  · rcases List.suffix_cons_iff.mp hsuf2 with heq | hsuf3
    · subst heq
      obtain ⟨c0, r0, hn0, hstart, hrall⟩ := identOk_head n hn
      rw [hn0]
      exact hsnd c0 ((r0 ++ [rbrace, rbrace]) ++ rest)
        (identChar_ne_lbrace c0 (identStart_identChar c0 hstart))
    · cases t2 with
      | nil => exact absurd rfl hne
      | cons c tt =>
        have hc : c ∈ n ++ [rbrace, rbrace] := hsuf3.subset (by simp)
        have hcne : ¬ c = lbrace := by
          rcases List.mem_append.mp hc with hcn | hcb
          · refine identChar_ne_lbrace c ?_
            have hall := identOk_all n hn
            simp only [List.all_eq_true] at hall
            exact hall c hcn
          · simp only [List.mem_cons, List.not_mem_nil, or_false] at hcb
            rcases hcb with h | h <;> (subst h; decide)
        exact hfst c (tt ++ rest) hcne

/-- One replace-all pass over a shaped text replaces exactly the placeholders
the matcher hits and leaves everything else verbatim. -/
theorem replaceAll_render (m : List Char → Option (List Char)) (v : List Char)
    (hit : List Char → Bool)
    (hm : ∀ s r, m s = some r → r.length < s.length)
    (hfst : ∀ (c : Char) (s : List Char), ¬ c = lbrace → m (c :: s) = none)
    (hsnd : ∀ (c : Char) (s : List Char), ¬ c = lbrace →
      m (lbrace :: c :: s) = none)
    (hph : ∀ n rest, identOk n = true →
      m (phOf n ++ rest) = if hit n then some rest else none) :
    ∀ l : List Item, itemsOk l = true →
      replaceAll m v (render l) = render (l.map (fun it =>
        match it with
        | .txt t => .txt t
        | .ph n => if hit n then .txt v else .ph n)) := by
  intro l
  induction l with
  | nil => intro _; rfl
  | cons it rest ih =>
    intro hok
    simp only [itemsOk, List.all_cons, Bool.and_eq_true] at hok
    have ihr := ih hok.2
    cases it with
    | txt t =>
      rw [show render (Item.txt t :: rest) = t ++ render rest from rfl,
        replaceAll_skip m v hm t (render rest)
          (suffix_fail_txt m hfst t (render rest) hok.1),
        ihr]
      rfl
    | ph n =>
      rw [show render (Item.ph n :: rest) = phOf n ++ render rest from rfl]
      have hmph := hph n (render rest) hok.1
      cases hh : hit n with
      | true =>
        rw [hh] at hmph
        simp only [if_true] at hmph
        rw [replaceAll_match_ne m v hm (phOf n ++ render rest) (render rest)
            (by simp [phOf]) hmph, ihr]
        simp [render, hh]
      | false =>
        rw [hh] at hmph
        simp only [Bool.false_eq_true, if_false] at hmph
        rw [replaceAll_skip m v hm (phOf n) (render rest)
            (suffix_fail_ph m hfst hsnd n (render rest) hok.1 hmph), ihr]
        simp [render, hh]

theorem replaceAll_exact_render (k v : List Char) (hk : identOk k = true)
    (l : List Item) (hl : itemsOk l = true) :
    replaceAll (matchExact k) v (render l) = render (substItems k v l) := by
  rw [replaceAll_render (matchExact k) v (ciListEq k)
    (fun s r h => matchExact_lt k s r h)
    (fun c s hc => matchExact_fail1 k c s hc)
    (fun c s hc => matchExact_fail2 k c s hc)
    (fun n rest hn => matchExact_ph k n rest hk hn) l hl]
  rfl

theorem replaceAll_padded_render (k v : List Char) (hk : identOk k = true)
    (l : List Item) (hl : itemsOk l = true) :
    replaceAll (matchPadded k) v (render l) = render (substItems k v l) := by
  rw [replaceAll_render (matchPadded k) v (ciListEq k)
    (fun s r h => matchPadded_lt k s r h)
    (fun c s hc => matchPadded_fail1 k c s hc)
    (fun c s hc => matchPadded_fail2 k c s hc)
    (fun n rest hn => matchPadded_ph k n rest hk hn) l hl]
  rfl

theorem itemsOk_substItems (k v : List Char) (l : List Item)
    (hv : braceFree v = true) (hl : itemsOk l = true) :
    itemsOk (substItems k v l) = true := by
  simp only [itemsOk, substItems, List.all_eq_true] at hl ⊢
  intro it hit
  rcases List.mem_map.mp hit with ⟨it0, hit0, heq⟩
  subst heq
  cases it0 with
  | txt t => exact hl (Item.txt t) hit0
  | ph n =>
    simp only [substItem]
    split
    · exact hv
    · exact hl (Item.ph n) hit0

theorem substItems_idem (k v : List Char) (l : List Item) :
    substItems k v (substItems k v l) = substItems k v l := by
  simp only [substItems, List.map_map]
  apply List.map_congr_left
  intro it _
  cases it with
  | txt t => rfl
  | ph n =>
    simp only [Function.comp, substItem]
    cases hh : ciListEq k n with
    | true => simp
    | false => simp [substItem, hh]

/-- One (name, value) pass of substituir_variaveis on a shaped text replaces
exactly the case-insensitively matching placeholders by the value. -/
theorem substOneVar_render (k v : List Char) (l : List Item)
    (hk : identOk k = true) (hv : braceFree v = true) (hl : itemsOk l = true) :
    substOneVar k v (render l) = render (substItems k v l) := by
  unfold substOneVar
  rw [replaceAll_exact_render k v hk l hl,
    replaceAll_padded_render k v hk (substItems k v l)
      (itemsOk_substItems k v l hv hl),
    substItems_idem]

/-- The dict fold on a shaped text acts item by item. -/
theorem foldSubst_render (valores : List (List Char × List Char)) :
    ∀ l : List Item, itemsOk l = true →
      (∀ kv ∈ valores, identOk kv.1 = true ∧ braceFree kv.2 = true) →
      valores.foldl (fun acc kv => substOneVar kv.1 kv.2 acc) (render l) =
        render (valores.foldl (fun acc kv => substItems kv.1 kv.2 acc) l) := by
  induction valores with
  | nil =>
    intro l _ _
    rfl
  | cons kv vs ih =>
    intro l hl hkv
    simp only [List.foldl_cons]
    rw [substOneVar_render kv.1 kv.2 l (hkv kv (by simp)).1
      (hkv kv (by simp)).2 hl]
    exact ih (substItems kv.1 kv.2 l)
      (itemsOk_substItems kv.1 kv.2 l (hkv kv (by simp)).2 hl)
      (fun kv2 h2 => hkv kv2 (by simp [h2]))

/-- The item fold resolves each placeholder with the first matching key. -/
theorem foldSubstItems_resolve (vs : List (List Char × List Char)) :
    ∀ l : List Item,
      vs.foldl (fun acc kv => substItems kv.1 kv.2 acc) l =
        l.map (resolveItem vs) := by
  induction vs with
  | nil =>
    intro l
    have hmap : l.map (resolveItem []) = l.map id :=
      List.map_congr_left (fun it _ => by cases it <;> rfl)
    rw [List.foldl_nil, hmap, List.map_id]
  | cons kv vs ih =>
    intro l
    obtain ⟨k0, v0⟩ := kv
    simp only [List.foldl_cons]
    rw [ih (substItems k0 v0 l)]
    simp only [substItems, List.map_map]
    apply List.map_congr_left
    intro it _
    cases it with
    | txt t => rfl
    | ph n =>
      simp only [Function.comp, substItem, resolveItem, lookupCi]
      cases hh : ciListEq k0 n with
      | true => simp [hh, resolveItem]
      | false => simp [hh, resolveItem]

/-- substituir_variaveis on a shaped text resolves every placeholder with the
first case-insensitively matching key of the dict. -/
theorem substituir_variaveis_render (l : List Item)
    (valores : List (String × String)) (hl : itemsOk l = true)
    (hkv : ∀ kv ∈ valores, identOk kv.1.data = true ∧ braceFree kv.2.data = true)
    (hne : valores ≠ []) :
    substituir_variaveis (String.mk (render l)) valores =
      String.mk (render (l.map (resolveItem (pdata valores)))) := by
  unfold substituir_variaveis
  rw [if_neg (by simp [hne])]
  have h2 : valores.foldl (fun acc kv => substOneVar kv.1.data kv.2.data acc)
      (render l) =
      (pdata valores).foldl (fun acc kv => substOneVar kv.1 kv.2 acc)
        (render l) := by
    rw [pdata, List.foldl_map]
  have h3 : ∀ kv ∈ pdata valores, identOk kv.1 = true ∧ braceFree kv.2 = true := by
    intro kv hkv2
    rcases List.mem_map.mp hkv2 with ⟨kv0, hkv0, heq⟩
    subst heq
    exact hkv kv0 hkv0
  have h4 := foldSubst_render (pdata valores) l hl h3
  rw [foldSubstItems_resolve (pdata valores) l] at h4
  have h5 : (String.mk (render l)).data = render l := rfl
  rw [h5, h2, h4]

theorem ciListEq_symm_false (a b : List Char) (h : ciListEq a b = false) :
    ciListEq b a = false := by
  cases hh : ciListEq b a with
  | false => rfl
  | true =>
    exfalso
    have hmap := (ciListEq_iff_map b a).mp hh
    have h2 : ciListEq a b = true := (ciListEq_iff_map a b).mpr hmap.symm
    rw [h2] at h
    cases h

/-- With pairwise case-insensitively distinct keys, the first matching key
does not depend on the enumeration order of the dict. -/
theorem lookupCi_perm (vs vs2 : List (List Char × List Char)) (n : List Char)
    (hperm : vs.Perm vs2)
    (hdist : vs.Pairwise (fun a b => ciListEq a.1 b.1 = false)) :
    lookupCi vs n = lookupCi vs2 n := by
  induction hperm with
  | nil => rfl
  | cons x h ih =>
    obtain ⟨k0, v0⟩ := x
    simp only [lookupCi]
    split
    · rfl
    · exact ih (List.pairwise_cons.mp hdist).2
  | swap x y l =>
    obtain ⟨k1, v1⟩ := x
    obtain ⟨k2, v2⟩ := y
    have hxy : ciListEq k2 k1 = false :=
      (List.pairwise_cons.mp hdist).1 (k1, v1) (by simp)
    simp only [lookupCi]
    cases h1 : ciListEq k2 n with
    | true =>
      cases h2 : ciListEq k1 n with
      | true =>
        exfalso
        have e2 := (ciListEq_iff_map k2 n).mp h1
        have e1 := (ciListEq_iff_map k1 n).mp h2
        have h3 : ciListEq k2 k1 = true :=
          (ciListEq_iff_map k2 k1).mpr (e2.trans e1.symm)
        rw [h3] at hxy
        cases hxy
      | false => simp [h1, h2]
    | false =>
      cases h2 : ciListEq k1 n with
      | true => simp [h1, h2]
      | false => simp [h1, h2]
  | trans hp1 hp2 ih1 ih2 =>
    have hsymm : ∀ {a b : List Char × List Char},
        ciListEq a.1 b.1 = false → ciListEq b.1 a.1 = false :=
      fun h => ciListEq_symm_false _ _ h
    rw [ih1 hdist, ih2 ((hp1.pairwise_iff hsymm).mp hdist)]

/-! Helper lemmas about takeWhile and dropWhile used for the strip theorems. -/

theorem takeWhile_dropWhile_nil (p : Char → Bool) :
    ∀ (l : List Char), (l.dropWhile p).takeWhile p = [] := by
  intro l
  induction l with
  | nil => rfl
  | cons c t ih =>
    by_cases hc : p c = true
    · simpa [List.dropWhile_cons, hc] using ih
    · simp [List.dropWhile_cons, List.takeWhile_cons, hc]

theorem takeWhile_nil_of_append (p : Char → Bool) (x y : List Char)
    (h : (x ++ y).takeWhile p = []) : x.takeWhile p = [] := by
  cases x with
  | nil => rfl
  | cons c t =>
    simp only [List.cons_append, List.takeWhile_cons] at h ⊢
    by_cases hc : p c = true
    · simp [hc] at h
    · simp [hc]

theorem all_takeWhile (p : Char → Bool) :
    ∀ (l : List Char), (l.takeWhile p).all p = true := by
  intro l
  induction l with
  | nil => rfl
  | cons c t ih =>
    by_cases hc : p c = true
    · simp [List.takeWhile_cons, hc, ih]
    · simp [List.takeWhile_cons, hc]

/-- Decomposition produced by str.strip: the original text is an all-whitespace
prefix, the stripped body, and an all-whitespace suffix. -/
theorem pyStripL_decomposition (l : List Char) :
    ∃ pre post, pre.all isWs = true ∧ post.all isWs = true ∧
      l = pre ++ pyStripL l ++ post := by
  refine ⟨l.takeWhile isWs, ((l.dropWhile isWs).reverse.takeWhile isWs).reverse, ?_, ?_, ?_⟩
  · exact all_takeWhile isWs l
  · rw [List.all_reverse]
    exact all_takeWhile isWs (l.dropWhile isWs).reverse
  · conv_lhs => rw [← @List.takeWhile_append_dropWhile Char isWs l]
    rw [List.append_assoc]
    congr 1
    conv_lhs => rw [← List.reverse_reverse (l.dropWhile isWs)]
    conv_lhs =>
      rw [← @List.takeWhile_append_dropWhile Char isWs (l.dropWhile isWs).reverse]
    rw [List.reverse_append]
    rfl

/-- The stripped body has no leading and no trailing whitespace. -/
theorem pyStripL_no_ws_edges (l : List Char) :
    (pyStripL l).takeWhile isWs = [] ∧ (pyStripL l).reverse.takeWhile isWs = [] := by
  constructor
  · have h1 : ((l.dropWhile isWs).takeWhile isWs) = [] := takeWhile_dropWhile_nil isWs l
    have h2 : l.dropWhile isWs =
        pyStripL l ++ ((l.dropWhile isWs).reverse.takeWhile isWs).reverse := by
      conv_lhs => rw [← List.reverse_reverse (l.dropWhile isWs)]
      conv_lhs =>
        rw [← @List.takeWhile_append_dropWhile Char isWs (l.dropWhile isWs).reverse]
      rw [List.reverse_append]
      rfl
    rw [h2] at h1
    exact takeWhile_nil_of_append isWs _ _ h1
  · have : (pyStripL l).reverse = (l.dropWhile isWs).reverse.dropWhile isWs := by
      simp [pyStripL]
    rw [this]
    exact takeWhile_dropWhile_nil isWs _

/-! ### Claim C9: the JSON safe serializer -/

/-- C9 counterexample: the claim states that every value other than None and
dates serializes to its string form, in particular that the integer 0
serializes to the string with the digit zero; but the code returns str(valor)
only when valor is truthy, so the integer 0 serializes to the empty string. -/
theorem serializar_valor_para_json_zero_cex :
    serializar_valor_para_json (PyValue.int 0) = "" ∧
    pyStr (PyValue.int 0) = "0" ∧
    serializar_valor_para_json (PyValue.int 0) ≠ pyStr (PyValue.int 0) := by
  refine ⟨by decide, by decide, by decide⟩

/-- C9 (amended): the serializer maps None to the empty string, a date to
DD/MM/YYYY, a datetime to DD/MM/YYYY HH:MM, and every other value to its
string form when it is truthy and to the empty string when it is falsy (the
integer 0, the empty string and False all give the empty string). -/
theorem serializar_valor_para_json_caracterizacao :
    serializar_valor_para_json PyValue.none = "" ∧
    (∀ d m y, serializar_valor_para_json (PyValue.date d m y) =
      pad2 d ++ "/" ++ pad2 m ++ "/" ++ pad4 y) ∧
    (∀ d m y hh mm, serializar_valor_para_json (PyValue.datetime d m y hh mm) =
      pad2 d ++ "/" ++ pad2 m ++ "/" ++ pad4 y ++ " " ++ pad2 hh ++ ":" ++ pad2 mm) ∧
    (∀ n : Int, serializar_valor_para_json (PyValue.int n) =
      if n = 0 then "" else toString n) ∧
    (∀ s : String, serializar_valor_para_json (PyValue.str s) =
      if s = "" then "" else s) ∧
    (∀ b : Bool, serializar_valor_para_json (PyValue.bool b) =
      if b then "True" else "") := by
  refine ⟨rfl, fun d m y => rfl, fun d m y hh mm => rfl, ?_, ?_, ?_⟩
  · intro n
    by_cases hn : n = 0
    · simp [serializar_valor_para_json, pyTruthy, hn]
    · simp [serializar_valor_para_json, pyTruthy, pyStr, hn]
  · intro s
    by_cases hs : s = ""
    · subst hs
      decide
    · have h1 : s.isEmpty = false := by
        rw [Bool.eq_false_iff]
        intro hh
        exact hs ((String.isEmpty_iff s).mp hh)
      simp [serializar_valor_para_json, pyTruthy, pyStr, h1, hs]
  · intro b
    cases b <;> simp [serializar_valor_para_json, pyTruthy, pyStr]

/-! ### Claim C10: the progress percentage accessor -/

theorem roundHalfEven_nonneg (q : ℚ) (h : 0 ≤ q) : 0 ≤ roundHalfEven q := by
  have hf : (0 : Int) ≤ ⌊q⌋ := Int.floor_nonneg.mpr h
  unfold roundHalfEven
  split_ifs <;> omega

theorem roundHalfEven_le (q : ℚ) (N : Int) (h : q ≤ (N : ℚ)) : roundHalfEven q ≤ N := by
  have hf : ⌊q⌋ ≤ N := by
    have := Int.floor_le_floor h
    simpa using this
  unfold roundHalfEven
  split_ifs with h1 h2 h3
  · exact hf
  · rcases lt_or_eq_of_le hf with hlt | heq
    · omega
    · exfalso
      rw [heq] at h2
      have : q - (N : ℚ) ≤ 0 := by linarith
      linarith
  · exact hf
  · rcases lt_or_eq_of_le hf with hlt | heq
    · omega
    · exfalso
      push_neg at h1
      rw [heq] at h1
      have : q - (N : ℚ) ≤ 0 := by linarith
      linarith

theorem pyRound2_bounds (q : ℚ) (h0 : 0 ≤ q) (h1 : q ≤ 100) :
    0 ≤ pyRound2 q ∧ pyRound2 q ≤ 100 := by
  have hn : 0 ≤ roundHalfEven (q * 100) := roundHalfEven_nonneg _ (by positivity)
  have hl : roundHalfEven (q * 100) ≤ (10000 : Int) := by
    apply roundHalfEven_le
    push_cast
    linarith
  constructor
  · unfold pyRound2
    positivity
  · unfold pyRound2
    rw [div_le_iff₀ (by norm_num : (0 : ℚ) < 100)]
    calc ((roundHalfEven (q * 100) : Int) : ℚ) ≤ ((10000 : Int) : ℚ) := by
          exact_mod_cast hl
      _ = 100 * 100 := by norm_num

/-- C10: the progress accessor of a MessagingRun is total: with
total_clientes = 0 it returns 0 and performs no division; otherwise it
returns the sent plus error count over the total, times 100, rounded (half to
even) to two decimal places; and with consistent non-negative counters the
result lies between 0 and 100. -/
theorem get_progresso_percentual_total_e_seguro (tc te terr : Int) :
    (tc = 0 → get_progresso_percentual tc te terr = 0) ∧
    (tc ≠ 0 → get_progresso_percentual tc te terr =
      pyRound2 (((te : ℚ) + (terr : ℚ)) / (tc : ℚ) * 100)) ∧
    (0 ≤ te → 0 ≤ terr → 0 < tc → te + terr ≤ tc →
      0 ≤ get_progresso_percentual tc te terr ∧
        get_progresso_percentual tc te terr ≤ 100) := by
  refine ⟨fun h => by simp [get_progresso_percentual, h], ?_, ?_⟩
  · intro h
    simp [get_progresso_percentual, h]
  · intro hte hterr htc hsum
    have htc0 : tc ≠ 0 := by omega
    have hq0 : (0 : ℚ) ≤ ((te : ℚ) + (terr : ℚ)) / (tc : ℚ) * 100 := by
      have h1 : (0 : ℚ) ≤ (te : ℚ) + (terr : ℚ) := by
        exact_mod_cast (show (0 : Int) ≤ te + terr by omega)
      have h2 : (0 : ℚ) < (tc : ℚ) := by exact_mod_cast htc
      positivity
    have hq1 : ((te : ℚ) + (terr : ℚ)) / (tc : ℚ) * 100 ≤ 100 := by
      have h2 : (0 : ℚ) < (tc : ℚ) := by exact_mod_cast htc
      have h3 : ((te : ℚ) + (terr : ℚ)) / (tc : ℚ) ≤ 1 := by
        rw [div_le_one h2]
        exact_mod_cast hsum
      nlinarith
    have hb := pyRound2_bounds _ hq0 hq1
    simp only [get_progresso_percentual, htc0, if_false]
    exact hb

/-- C10 witness: a concrete run with 4 clients, 1 sent and 1 error has
progress 50 and satisfies the bounds. -/
theorem get_progresso_percentual_total_e_seguro_witness :
    get_progresso_percentual 4 1 1 = 50 ∧
    (0 ≤ get_progresso_percentual 4 1 1 ∧ get_progresso_percentual 4 1 1 ≤ 100) := by
  constructor
  · norm_num [get_progresso_percentual, pyRound2, roundHalfEven]
  · exact (get_progresso_percentual_total_e_seguro 4 1 1).2.2
      (by decide) (by decide) (by decide) (by decide)

/-! ### Claim C7: whitespace treatment of the executed SQL statement -/

/-- C7 counterexample: the claim states that runs of whitespace inside the
statement are collapsed to single spaces before execution; the code only
strips the two ends (query.strip()), so an interior double space survives and
the executed statement differs from the collapsed form. -/
theorem preparar_query_sql_nao_colapsa_cex :
    preparar_query_sql "SELECT  1" [] = "SELECT  1" ∧
    collapse_ws_spec "SELECT  1" = "SELECT 1" ∧
    preparar_query_sql "SELECT  1" [] ≠ collapse_ws_spec "SELECT  1" := by
  refine ⟨by decide, by decide, by decide⟩

/-- C7 (amended): the External Query Client strips leading and trailing
whitespace from the (substituted) statement before executing it and leaves
interior whitespace intact: the substituted text is an all-whitespace prefix,
then the executed statement verbatim, then an all-whitespace suffix, and the
executed statement neither starts nor ends with whitespace. -/
theorem preparar_query_sql_strip (sql : String) (valores : List (String × String)) :
    ∃ pre post, pre.all isWs = true ∧ post.all isWs = true ∧
      (consulta_processada sql valores).data =
        pre ++ (preparar_query_sql sql valores).data ++ post ∧
      (preparar_query_sql sql valores).data.takeWhile isWs = [] ∧
      (preparar_query_sql sql valores).data.reverse.takeWhile isWs = [] := by
  obtain ⟨pre, post, h1, h2, h3⟩ :=
    pyStripL_decomposition (consulta_processada sql valores).data
  have he := pyStripL_no_ws_edges (consulta_processada sql valores).data
  have hdata : (preparar_query_sql sql valores).data =
      pyStripL (consulta_processada sql valores).data := rfl
  exact ⟨pre, post, h1, h2, by rw [hdata]; exact h3,
    by rw [hdata]; exact he.1, by rw [hdata]; exact he.2⟩

/-! ### Facts about the database helpers -/

theorem getOrCreateCliente_consultas (db : Db) (pred : Cliente → Bool)
    (novo : Nat → Cliente) :
    ((getOrCreateCliente db pred novo).1).consultas = db.consultas := by
  simp only [getOrCreateCliente]
  split <;> rfl

theorem clienteParaErro_consultas (db : Db) (row : Row) (cs : Option Nat) :
    ((clienteParaErro db row cs).1).consultas = db.consultas := by
  simp only [clienteParaErro]
  split
  · rfl
  · split
    · exact getOrCreateCliente_consultas _ _ _
    · rfl

theorem upsertConsulta_mem (db : Db) (eid cid : Nat) (dflt : ConsultaClienteRow)
    (esc : ConsultaClienteRow → ConsultaClienteRow) (db2 : Db)
    (h : upsertConsulta db eid cid dflt esc = some db2) :
    ∀ r ∈ db2.consultas,
      r ∈ db.consultas ∨ r = dflt ∨ ∃ r0, r0 ∈ db.consultas ∧ r = esc r0 := by
  simp only [upsertConsulta] at h
  split at h
  · cases h
    intro r hr
    rcases List.mem_append.mp hr with h1 | h1
    · exact Or.inl h1
    · simp only [List.mem_singleton] at h1
      exact Or.inr (Or.inl h1)
  · cases h
    intro r hr
    simp only [List.mem_map] at hr
    obtain ⟨r0, hr0, heq⟩ := hr
    by_cases hk : consultaKey eid cid r0 = true
    · right; right
      exact ⟨r0, hr0, by rw [← heq]; simp [hk]⟩
    · left
      rw [← heq]
      simp only [hk, if_false]
      exact hr0
  · exact absurd h (by simp)

/-- Every row of the result table after the except branch either was already
present or is recorded as a failure. -/
theorem registrarErro_mem (db : Db) (row : Row) (eid : Nat) (cs : Option Nat)
    (msg : String) :
    ∀ r ∈ ((registrarErro db row eid cs msg).1).consultas,
      r ∈ db.consultas ∨ r.sucesso_api = false := by
  simp only [registrarErro]
  rcases hp : clienteParaErro db row cs with ⟨db1, o⟩
  have hc : db1.consultas = db.consultas := by
    have := clienteParaErro_consultas db row cs
    rw [hp] at this
    exact this
  cases o with
  | none =>
    intro r hr
    exact Or.inl (hc ▸ hr)
  | some cid =>
    simp only
    rcases hu : upsertConsulta db1 eid cid _ _ with _ | db2
    · intro r hr
      exact Or.inl (hc ▸ hr)
    · intro r hr
      rcases upsertConsulta_mem _ _ _ _ _ _ hu r hr with h1 | h1 | ⟨r0, _, h2⟩
      · exact Or.inl (hc ▸ h1)
      · right
        rw [h1]
        rfl
      · right
        rw [h2]
        rfl

/-- The except branch always reports failure: no cliente and the message. -/
theorem registrarErro_snd (db : Db) (row : Row) (eid : Nat) (cs : Option Nat)
    (msg : String) :
    ((registrarErro db row eid cs msg).2) = (Option.none, some msg) := by
  simp only [registrarErro]
  rcases hp : clienteParaErro db row cs with ⟨db1, o⟩
  cases o with
  | none => rfl
  | some cid =>
    simp only
    rcases hu : upsertConsulta db1 eid cid _ _ with _ | db2 <;> rfl

/-- With no API response, the processor takes the failure branch: no cliente
is returned and every new result row is a failure row. -/
theorem processar_none_props (row : Row) (eid cred : Nat) (db : Db) :
    ((processar_cliente_api Option.none row eid cred db).2.1) = Option.none ∧
    ∀ r ∈ ((processar_cliente_api Option.none row eid cred db).1).consultas,
      r ∈ db.consultas ∨ r.sucesso_api = false := by
  have hdt : dadosTruthy Option.none = false := rfl
  constructor
  · simp only [processar_cliente_api, hdt, if_pos]
    have := registrarErro_snd db row eid Option.none
      "Falha ao consultar dados na API - resposta vazia ou erro de conexao"
    exact congrArg Prod.fst this
  · simp only [processar_cliente_api, hdt, if_pos]
    exact registrarErro_mem db row eid Option.none _

/-- With a failing token fetch and no cached token, one loop step leaves the
API client without a token and the item fails. -/
theorem stepItem_token_fail (env : RunEnv) (eid cred : Nat) (st : ApiState)
    (db : Db) (r : Row) (htok : env.tokenResult = Option.none)
    (hst : st.access_token = Option.none) :
    stepItem env eid cred st db r =
      (st, (processar_cliente_api Option.none r eid cred db).1, false) := by
  have hcons : consultar_cliente_financeiro env st (pyStrOpt r.codigo_cliente) =
      (st, Option.none) := by
    simp only [consultar_cliente_financeiro, hst, htok]
  simp only [stepItem, hcons]
  rw [(processar_none_props r eid cred db).1]
  rfl

/-! ### Claim C2: token fetch failure is absorbed per item -/

/-- With a failing token fetch, the loop never aborts: each remaining item is
counted as an error (with only failure rows written) and the run completes. -/
theorem loopConsulta_token_fail (env : RunEnv) (eid cred : Nat)
    (htok : env.tokenResult = Option.none)
    (hcan : ∀ j, env.cancelada j = false) :
    ∀ (rows : List Row) (i : Nat) (st : ApiState) (db : Db) (proc err : Nat)
      (pers : ExecPersist), st.access_token = Option.none →
      (loopConsulta env eid cred i rows st db proc err pers).1.status =
          QStatus.concluida ∧
      (loopConsulta env eid cred i rows st db proc err pers).1.total_consultados_api
          = proc ∧
      (loopConsulta env eid cred i rows st db proc err pers).1.total_erros =
          err + rows.length ∧
      ∀ r ∈ ((loopConsulta env eid cred i rows st db proc err pers).2).consultas,
        r ∈ db.consultas ∨ r.sucesso_api = false := by
  intro rows
  induction rows with
  | nil =>
    intro i st db proc err pers hst
    refine ⟨rfl, rfl, by simp [loopConsulta], fun r hr => Or.inl hr⟩
  | cons row rest ih =>
    intro i st db proc err pers hst
    have hstep := stepItem_token_fail env eid cred st db row htok hst
    simp only [loopConsulta, hcan i, Bool.false_eq_true, if_false, hstep]
    have hmem := (processar_none_props row eid cred db).2
    set db2 := (processar_cliente_api Option.none row eid cred db).1 with hdb2
    have hih := ih (i + 1) st db2 proc (err + 1)
      (if i % 10 = 0 then
        { pers with total_consultados_api := proc, total_erros := err + 1 }
       else pers) hst
    refine ⟨hih.1, hih.2.1, by rw [hih.2.2.1]; simp [List.length_cons]; omega, ?_⟩
    intro r hr
    rcases hih.2.2.2 r hr with h1 | h1
    · exact hmem r h1
    · exact Or.inr h1

/-- C2 counterexample: a run of two rows in which every token fetch fails
(the claimed AuthenticationError situation) does NOT end in run-level status
erro: both items are recorded as isolated per-item failures, the loop runs to
the end and the run finishes concluida with two errors. -/
theorem processar_consulta_token_falha_cex :
    (processar_consulta_completa envTokenFalha 1 7 dbVazio).1.status =
        QStatus.concluida ∧
    (processar_consulta_completa envTokenFalha 1 7 dbVazio).1.status ≠
        QStatus.erro ∧
    (processar_consulta_completa envTokenFalha 1 7 dbVazio).1.total_erros = 2 ∧
    (processar_consulta_completa envTokenFalha 1 7 dbVazio).1.total_consultados_api
        = 0 ∧
    ((processar_consulta_completa envTokenFalha 1 7 dbVazio).2).consultas.map
        (fun r => r.sucesso_api) = [false, false] := by
  refine ⟨by decide, by decide, by decide, by decide, by decide⟩

/-- C2 (amended): when the enrichment token fetch fails during a run, the
failure is caught inside the per-item lookup (which returns null), every row
is recorded as an isolated per-item failure, the loop continues over all
remaining rows, and the run terminates with status concluida (it is not
aborted with run-level status erro). -/
theorem processar_consulta_token_falha (env : RunEnv) (eid cred : Nat) (db : Db)
    (htok : env.tokenResult = Option.none) (hrows : env.rows ≠ [])
    (hcan : ∀ j, env.cancelada j = false) :
    (processar_consulta_completa env eid cred db).1.status = QStatus.concluida ∧
    (processar_consulta_completa env eid cred db).1.total_erros =
        env.rows.length ∧
    (processar_consulta_completa env eid cred db).1.total_consultados_api = 0 ∧
    ∀ r ∈ ((processar_consulta_completa env eid cred db).2).consultas,
      r ∈ db.consultas ∨ r.sucesso_api = false := by
  have hne : env.rows.isEmpty = false := by
    cases hr : env.rows with
    | nil => exact absurd hr hrows
    | cons a l => rfl
  have h := loopConsulta_token_fail env eid cred htok hcan env.rows 1
    { access_token := Option.none } db 0 0
    { status := QStatus.executando, total_registros_sql := env.rows.length,
      total_consultados_api := 0, total_erros := 0, data_fim := false } rfl
  simp only [processar_consulta_completa, hne, Bool.false_eq_true, if_false]
  refine ⟨h.1, ?_, h.2.1, h.2.2.2⟩
  rw [h.2.2.1]
  omega

/-- C2 witness: the amended statement applied to the concrete two-row run
with a failing token fetch. -/
theorem processar_consulta_token_falha_witness :
    (envTokenFalha.tokenResult = Option.none ∧ envTokenFalha.rows ≠ []) ∧
    (processar_consulta_completa envTokenFalha 1 7 dbVazio).1.status =
        QStatus.concluida ∧
    (processar_consulta_completa envTokenFalha 1 7 dbVazio).1.total_erros =
        envTokenFalha.rows.length := by
  refine ⟨⟨rfl, by simp [envTokenFalha]⟩, ?_⟩
  have h := processar_consulta_token_falha envTokenFalha 1 7 dbVazio rfl
    (by simp [envTokenFalha]) (fun j => rfl)
  exact ⟨h.1, h.2.1⟩

/-! ### Claim C5: cooperative cancellation of a query run -/

/-- When the first observed cancellation is at check k, the loop stops there:
the final state is exactly the fold of the loop body over the rows before k,
and the persisted status stays cancelada. -/
theorem loopConsulta_cancel (env : RunEnv) (eid cred : Nat) :
    ∀ (rows : List Row) (i k : Nat) (st : ApiState) (db : Db) (proc err : Nat)
      (pers : ExecPersist),
      i ≤ k → k < i + rows.length →
      (∀ j, i ≤ j → j < k → env.cancelada j = false) →
      env.cancelada k = true →
      (loopConsulta env eid cred i rows st db proc err pers).1.status =
          QStatus.cancelada ∧
      (loopConsulta env eid cred i rows st db proc err pers).2 =
        (processRows env eid cred (rows.take (k - i)) st db).2 := by
  intro rows
  induction rows with
  | nil =>
    intro i k st db proc err pers h1 h2 h3 h4
    simp only [List.length_nil] at h2
    omega
  | cons r rest ih =>
    intro i k st db proc err pers h1 h2 h3 h4
    by_cases hik : i = k
    · subst hik
      constructor
      · simp [loopConsulta, h4]
      · simp [loopConsulta, h4, Nat.sub_self, processRows]
    · have hlt : i < k := lt_of_le_of_ne h1 hik
      have hci : env.cancelada i = false := h3 i (le_refl i) hlt
      simp only [loopConsulta, hci, Bool.false_eq_true, if_false]
      have hih := ih (i + 1) k (stepItem env eid cred st db r).1
        (stepItem env eid cred st db r).2.1
        (if (stepItem env eid cred st db r).2.2 then proc + 1 else proc)
        (if (stepItem env eid cred st db r).2.2 then err else err + 1)
        (if i % 10 = 0 then
          { pers with
            total_consultados_api :=
              if (stepItem env eid cred st db r).2.2 then proc + 1 else proc,
            total_erros :=
              if (stepItem env eid cred st db r).2.2 then err else err + 1 }
         else pers)
        (by omega) (by simp only [List.length_cons] at h2; omega)
        (fun j hj1 hj2 => h3 j (by omega) hj2) h4
      refine ⟨hih.1, ?_⟩
      rw [hih.2]
      have hk : k - i = (k - (i + 1)) + 1 := by omega
      rw [hk, List.take_succ_cons]
      simp only [processRows]

/-- C5: once the orchestrator observes a cancelled status before an item, no
further source rows are processed (the database equals the pure fold over the
rows processed before the observation, so every ClientQueryResult written for
those earlier rows is retained) and the final persisted status is cancelada. -/
theorem cancelamento_cooperativo (env : RunEnv) (eid cred : Nat) (db : Db)
    (k : Nat) (h1 : 1 ≤ k) (h2 : k ≤ env.rows.length)
    (h3 : ∀ j, 1 ≤ j → j < k → env.cancelada j = false)
    (h4 : env.cancelada k = true) :
    (processar_consulta_completa env eid cred db).1.status = QStatus.cancelada ∧
    (processar_consulta_completa env eid cred db).2 =
      (processRows env eid cred (env.rows.take (k - 1))
        { access_token := Option.none } db).2 := by
  have hne : env.rows.isEmpty = false := by
    cases hr : env.rows with
    | nil => rw [hr] at h2; simp only [List.length_nil] at h2; omega
    | cons a l => rfl
  simp only [processar_consulta_completa, hne, Bool.false_eq_true, if_false]
  exact loopConsulta_cancel env eid cred env.rows 1 k _ db 0 0 _ h1 (by omega) h3 h4

/-- C5 witness: a concrete run of two rows cancelled at the second check
keeps the first result, processes nothing further, and ends cancelada. -/
theorem cancelamento_cooperativo_witness :
    (1 ≤ 2 ∧ 2 ≤ envCancelaEm2.rows.length ∧ envCancelaEm2.cancelada 2 = true) ∧
    (processar_consulta_completa envCancelaEm2 1 7 dbVazio).1.status =
        QStatus.cancelada ∧
    (processar_consulta_completa envCancelaEm2 1 7 dbVazio).2 =
      (processRows envCancelaEm2 1 7 (envCancelaEm2.rows.take 1)
        { access_token := Option.none } dbVazio).2 := by
  refine ⟨⟨by decide, by decide, by decide⟩, ?_⟩
  have h := cancelamento_cooperativo envCancelaEm2 1 7 dbVazio 2 (by decide)
    (by decide)
    (fun j hj1 hj2 => by
      have hj : j = 1 := by omega
      subst hj
      decide)
    (by decide)
  exact h

/-! ### Claims C1 and C4: the upsert discipline of the per-record processor -/

theorem map_eq_self_of {α : Type} (l : List α) (f : α → α)
    (h : ∀ a ∈ l, f a = a) : l.map f = l := by
  induction l with
  | nil => rfl
  | cons a t ih =>
    simp only [List.map_cons]
    rw [h a (by simp), ih (fun b hb => h b (by simp [hb]))]

theorem getOrCreateCliente_nil (db : Db) (pred : Cliente → Bool)
    (novo : Nat → Cliente) (hf : db.clientes.filter pred = []) :
    getOrCreateCliente db pred novo =
      ({ db with
         clientes := db.clientes ++ [novo db.nextClienteId],
         nextClienteId := db.nextClienteId + 1 }, some db.nextClienteId) := by
  simp only [getOrCreateCliente, hf]

theorem getOrCreateCliente_one (db : Db) (pred : Cliente → Bool)
    (novo : Nat → Cliente) (c : Cliente) (hf : db.clientes.filter pred = [c]) :
    getOrCreateCliente db pred novo = (db, some c.id) := by
  simp only [getOrCreateCliente, hf]

theorem getOrCreateCliente_many (db : Db) (pred : Cliente → Bool)
    (novo : Nat → Cliente) (c1 c2 : Cliente) (t : List Cliente)
    (hf : db.clientes.filter pred = c1 :: c2 :: t) :
    getOrCreateCliente db pred novo = (db, Option.none) := by
  simp only [getOrCreateCliente, hf]

theorem upsertConsulta_nil (db : Db) (eid cid : Nat) (dflt : ConsultaClienteRow)
    (esc : ConsultaClienteRow → ConsultaClienteRow)
    (hf : db.consultas.filter (consultaKey eid cid) = []) :
    upsertConsulta db eid cid dflt esc =
      some { db with consultas := db.consultas ++ [dflt] } := by
  simp only [upsertConsulta, hf]

theorem upsertConsulta_one (db : Db) (eid cid : Nat) (dflt : ConsultaClienteRow)
    (esc : ConsultaClienteRow → ConsultaClienteRow) (x : ConsultaClienteRow)
    (hf : db.consultas.filter (consultaKey eid cid) = [x]) :
    upsertConsulta db eid cid dflt esc =
      some { db with
             consultas := db.consultas.map
               (fun r => if consultaKey eid cid r then esc r else r) } := by
  simp only [upsertConsulta, hf]

theorem upsertConsulta_many (db : Db) (eid cid : Nat) (dflt : ConsultaClienteRow)
    (esc : ConsultaClienteRow → ConsultaClienteRow) (x1 x2 : ConsultaClienteRow)
    (t : List ConsultaClienteRow)
    (hf : db.consultas.filter (consultaKey eid cid) = x1 :: x2 :: t) :
    upsertConsulta db eid cid dflt esc = Option.none := by
  simp only [upsertConsulta, hf]

/-- The key predicate agrees with equality of the key pair. -/
theorem consultaKey_iff (eid cid : Nat) (r : ConsultaClienteRow) :
    consultaKey eid cid r = true ↔ (r.execucao, r.cliente) = (eid, cid) := by
  simp [consultaKey, Prod.ext_iff]

/-- The upsert preserves the uniqueness invariant of the result table, as
long as the defaults carry the key and the overwrite leaves the key fields
unchanged. -/
theorem upsertConsulta_unicas (db : Db) (eid cid : Nat)
    (dflt : ConsultaClienteRow) (esc : ConsultaClienteRow → ConsultaClienteRow)
    (db2 : Db)
    (hkd : dflt.execucao = eid ∧ dflt.cliente = cid)
    (hke : ∀ r, (esc r).execucao = r.execucao ∧ (esc r).cliente = r.cliente)
    (h : upsertConsulta db eid cid dflt esc = some db2)
    (hn : ConsultasUnicas db) : ConsultasUnicas db2 := by
  simp only [upsertConsulta] at h
  rcases hf : db.consultas.filter (consultaKey eid cid) with _ | ⟨x, xs⟩
  · rw [hf] at h
    simp only [Option.some.injEq] at h
    subst h
    have hout : (eid, cid) ∉ consultasKeys db := by
      intro hmem
      simp only [consultasKeys, List.mem_map] at hmem
      obtain ⟨r, hr, hkey⟩ := hmem
      have : consultaKey eid cid r = true := by
        rw [consultaKey_iff]
        exact hkey
      have : r ∈ db.consultas.filter (consultaKey eid cid) :=
        List.mem_filter.mpr ⟨hr, this⟩
      rw [hf] at this
      exact absurd this (List.not_mem_nil r)
    have hkeys : consultasKeys { db with consultas := db.consultas ++ [dflt] } =
        consultasKeys db ++ [(eid, cid)] := by
      simp [consultasKeys, hkd.1, hkd.2]
    unfold ConsultasUnicas
    rw [hkeys]
    simp only [List.nodup_append, List.nodup_singleton]
    exact ⟨hn, by simpa using hout⟩
  · rcases xs with _ | ⟨x2, t⟩
    · rw [hf] at h
      simp only [Option.some.injEq] at h
      subst h
      have hkeys : consultasKeys
          { db with
            consultas := db.consultas.map
              (fun r => if consultaKey eid cid r then esc r else r) } =
          consultasKeys db := by
        simp only [consultasKeys, List.map_map]
        apply List.map_congr_left
        intro r hr
        by_cases hk : consultaKey eid cid r = true
        · simp [hk, (hke r).1, (hke r).2]
        · simp [hk]
      unfold ConsultasUnicas
      rw [hkeys]
      exact hn
    · rw [hf] at h
      exact absurd h (by simp)

/-! Key facts about the predicates and overwrites of the processor. -/

theorem clientePredErro_novo (row : Row) (n : Nat) :
    clientePredErro row (clienteNovoErro row n) = true := by
  simp [clientePredErro, clienteNovoErro]

theorem clienteNovoErro_id (row : Row) (n : Nat) :
    (clienteNovoErro row n).id = n := rfl

theorem clientePredSucesso_novo (row : Row) (cred n : Nat) :
    clientePredSucesso row cred (clienteNovoSucesso row cred n) = true := by
  simp [clientePredSucesso, clienteNovoSucesso]

theorem clienteNovoSucesso_id (row : Row) (cred n : Nat) :
    (clienteNovoSucesso row cred n).id = n := rfl

theorem clientePredSucesso_novoErro (row : Row) (cred n : Nat) :
    clientePredSucesso row cred (clienteNovoErro row n) = false := by
  simp [clientePredSucesso, clienteNovoErro]

theorem atualizarFatura_predSucesso (row : Row) (cred : Nat) (fatura : Fatura)
    (c : Cliente) :
    clientePredSucesso row cred (atualizarFatura fatura c) =
      clientePredSucesso row cred c := rfl

theorem atualizarFatura_id (fatura : Fatura) (c : Cliente) :
    (atualizarFatura fatura c).id = c.id := rfl

theorem atualizarFatura_idem (fatura : Fatura) (c : Cliente) :
    atualizarFatura fatura (atualizarFatura fatura c) = atualizarFatura fatura c := rfl

theorem consultaEscreverErro_key (row : Row) (msg : String) (eid cid : Nat)
    (r : ConsultaClienteRow) :
    consultaKey eid cid (consultaEscreverErro row msg r) = consultaKey eid cid r := rfl

theorem consultaEscreverErro_idem (row : Row) (msg : String) (r : ConsultaClienteRow) :
    consultaEscreverErro row msg (consultaEscreverErro row msg r) =
      consultaEscreverErro row msg r := rfl

theorem consultaEscreverErro_padrao (row : Row) (eid cid : Nat) (msg : String) :
    consultaEscreverErro row msg (consultaPadraoErro row eid cid msg) =
      consultaPadraoErro row eid cid msg := rfl

theorem consultaPadraoErro_key (row : Row) (eid cid : Nat) (msg : String) :
    consultaKey eid cid (consultaPadraoErro row eid cid msg) = true := by
  simp [consultaKey, consultaPadraoErro]

theorem consultaEscreverSucesso_key (dados : Option DadosApi) (row : Row)
    (eid cid : Nat) (r : ConsultaClienteRow) :
    consultaKey eid cid (consultaEscreverSucesso dados row r) =
      consultaKey eid cid r := rfl

theorem consultaEscreverSucesso_idem (dados : Option DadosApi) (row : Row)
    (r : ConsultaClienteRow) :
    consultaEscreverSucesso dados row (consultaEscreverSucesso dados row r) =
      consultaEscreverSucesso dados row r := rfl

theorem consultaEscreverSucesso_padrao (dados : Option DadosApi) (row : Row)
    (eid cid : Nat) :
    consultaEscreverSucesso dados row (consultaPadraoSucesso dados row eid cid) =
      consultaPadraoSucesso dados row eid cid := rfl

theorem consultaPadraoSucesso_key (dados : Option DadosApi) (row : Row)
    (eid cid : Nat) :
    consultaKey eid cid (consultaPadraoSucesso dados row eid cid) = true := by
  simp [consultaKey, consultaPadraoSucesso]

/-! Generic facts about filters and maps used by the stability arguments. -/

theorem filter_map_pred {α : Type} (l : List α) (h : α → α) (p : α → Bool)
    (hp : ∀ a, p (h a) = p a) : (l.map h).filter p = (l.filter p).map h := by
  induction l with
  | nil => rfl
  | cons a t ih =>
    simp only [List.map_cons, List.filter_cons, hp a]
    by_cases hpa : p a = true
    · simp [hpa, ih]
    · simp [hpa, ih]

theorem filter_map_g {α : Type} (l : List α) (key : α → Bool) (esc : α → α)
    (hke : ∀ r, key (esc r) = key r) :
    (l.map (fun r => if key r then esc r else r)).filter key =
      (l.filter key).map esc := by
  rw [filter_map_pred l _ key (fun a => by
    by_cases h : key a = true <;> simp [h, hke])]
  apply List.map_congr_left
  intro r hr
  have : key r = true := (List.mem_filter.mp hr).2
  simp [this]

theorem map_g_idem {α : Type} (l : List α) (key : α → Bool) (esc : α → α)
    (hke : ∀ r, key (esc r) = key r) (hee : ∀ r, esc (esc r) = esc r) :
    ((l.map (fun r => if key r then esc r else r)).map
        (fun r => if key r then esc r else r)) =
      l.map (fun r => if key r then esc r else r) := by
  rw [List.map_map]
  apply List.map_congr_left
  intro r hr
  by_cases h : key r = true
  · simp [Function.comp, h, hke r, hee r]
  · simp [Function.comp, h]

theorem map_update_idem (cid : Nat) (f : Cliente → Cliente)
    (hid : ∀ c, (f c).id = c.id) (hf : ∀ c, f (f c) = f c) (l : List Cliente) :
    ((l.map (fun c => if c.id = cid then f c else c)).map
        (fun c => if c.id = cid then f c else c)) =
      l.map (fun c => if c.id = cid then f c else c) := by
  rw [List.map_map]
  apply List.map_congr_left
  intro c hc
  by_cases h : c.id = cid
  · simp [Function.comp, h, hid c, hf c]
  · simp [Function.comp, h]

/-- If a first upsert succeeded, re-running the same upsert on any state with
the same result table leaves that state unchanged (the fields are already the
written values, so the overwrite is the identity). -/
theorem upsertConsulta_fixpoint (db dbA dbB : Db) (eid cid : Nat)
    (dflt : ConsultaClienteRow) (esc : ConsultaClienteRow → ConsultaClienteRow)
    (hkd : consultaKey eid cid dflt = true)
    (hke : ∀ r, consultaKey eid cid (esc r) = consultaKey eid cid r)
    (hed : esc dflt = dflt)
    (hee : ∀ r, esc (esc r) = esc r)
    (h : upsertConsulta db eid cid dflt esc = some dbA)
    (hc : dbB.consultas = dbA.consultas) :
    upsertConsulta dbB eid cid dflt esc = some dbB := by
  simp only [upsertConsulta] at h
  rcases hf : db.consultas.filter (consultaKey eid cid) with _ | ⟨x, xs⟩
  · rw [hf] at h
    simp only [Option.some.injEq] at h
    have hAc : dbA.consultas = db.consultas ++ [dflt] := by rw [← h]
    have hnokey : ∀ r ∈ db.consultas, ¬ consultaKey eid cid r = true :=
      List.filter_eq_nil_iff.mp hf
    have hfB : dbB.consultas.filter (consultaKey eid cid) = [dflt] := by
      rw [hc, hAc, List.filter_append, hf, List.filter_cons]
      simp [hkd]
    rw [upsertConsulta_one dbB eid cid dflt esc dflt hfB]
    have hmap : dbB.consultas.map
        (fun r => if consultaKey eid cid r then esc r else r) = dbB.consultas := by
      rw [hc, hAc, List.map_append]
      congr 1
      · apply map_eq_self_of
        intro a ha
        simp [hnokey a ha]
      · simp [hkd, hed]
    rw [hmap]
  · rcases xs with _ | ⟨x2, t⟩
    · rw [hf] at h
      simp only [Option.some.injEq] at h
      have hAc : dbA.consultas = db.consultas.map
          (fun r => if consultaKey eid cid r then esc r else r) := by rw [← h]
      have hxkey : consultaKey eid cid x = true := by
        have hx : x ∈ db.consultas.filter (consultaKey eid cid) := by
          rw [hf]
          exact List.mem_singleton_self x
        exact (List.mem_filter.mp hx).2
      have hfB : dbB.consultas.filter (consultaKey eid cid) = [esc x] := by
        rw [hc, hAc, filter_map_g _ _ _ hke, hf]
        rfl
      rw [upsertConsulta_one dbB eid cid dflt esc (esc x) hfB]
      have hmap : dbB.consultas.map
          (fun r => if consultaKey eid cid r then esc r else r) = dbB.consultas := by
        rw [hc, hAc]
        exact map_g_idem _ _ _ hke hee
      rw [hmap]
    · rw [hf] at h
      exact absurd h (by simp)

theorem upsertConsulta_clientes (db : Db) (eid cid : Nat)
    (dflt : ConsultaClienteRow) (esc : ConsultaClienteRow → ConsultaClienteRow)
    (db2 : Db) (h : upsertConsulta db eid cid dflt esc = some db2) :
    db2.clientes = db.clientes := by
  simp only [upsertConsulta] at h
  split at h
  · simp only [Option.some.injEq] at h
    rw [← h]
  · simp only [Option.some.injEq] at h
    rw [← h]
  · exact absurd h (by simp)

theorem updateCliente_consultas (db : Db) (cid : Nat) (f : Cliente → Cliente) :
    (updateCliente db cid f).consultas = db.consultas := rfl

theorem updateCliente_clientes (db : Db) (cid : Nat) (f : Cliente → Cliente) :
    (updateCliente db cid f).clientes =
      db.clientes.map (fun c => if c.id = cid then f c else c) := rfl

/-- When the clientes of the state are already the image of a guarded update,
re-applying the same guarded update changes nothing. -/
theorem updateCliente_stable (db3 : Db) (cid : Nat) (f : Cliente → Cliente)
    (l : List Cliente) (hid : ∀ c, (f c).id = c.id) (hf : ∀ c, f (f c) = f c)
    (h : db3.clientes = l.map (fun c => if c.id = cid then f c else c)) :
    updateCliente db3 cid f = db3 := by
  simp only [updateCliente]
  rw [h, map_update_idem cid f hid hf l, ← h]

/-- The except branch either leaves the cliente table alone or appends the
credencial-free cliente created from the row. -/
theorem registrarErro_clientes (db : Db) (row : Row) (eid : Nat)
    (cs : Option Nat) (msg : String) :
    ((registrarErro db row eid cs msg).1).clientes = db.clientes ∨
      ((registrarErro db row eid cs msg).1).clientes =
        db.clientes ++ [clienteNovoErro row db.nextClienteId] := by
  simp only [registrarErro]
  rcases hp : clienteParaErro db row cs with ⟨db1, o⟩
  have hcl : db1.clientes = db.clientes ∨
      db1.clientes = db.clientes ++ [clienteNovoErro row db.nextClienteId] := by
    simp only [clienteParaErro] at hp
    rcases cs with _ | cid
    · by_cases ht : pyTruthyStrOpt row.codigo_cliente = true
      · rw [if_pos ht] at hp
        simp only [getOrCreateCliente] at hp
        split at hp
        · right
          have := congrArg (fun p => (p.1).clientes) hp
          simp only at this
          rw [← this]
        · left
          have := congrArg (fun p => (p.1).clientes) hp
          simp only at this
          rw [← this]
        · left
          have := congrArg (fun p => (p.1).clientes) hp
          simp only at this
          rw [← this]
      · rw [if_neg ht] at hp
        left
        have := congrArg (fun p => (p.1).clientes) hp
        simp only at this
        rw [← this]
    · left
      have := congrArg (fun p => (p.1).clientes) hp
      simp only at this
      rw [← this]
  cases o with
  | none => exact hcl
  | some cid =>
    simp only
    rcases hu : upsertConsulta db1 eid cid (consultaPadraoErro row eid cid msg)
        (consultaEscreverErro row msg) with _ | db2
    · exact hcl
    · simp only
      rw [upsertConsulta_clientes db1 eid cid _ _ db2 hu]
      exact hcl

/-! Branch-by-branch reductions of the except branch. -/

theorem registrarErro_not_truthy (db : Db) (row : Row) (eid : Nat) (msg : String)
    (ht : ¬ pyTruthyStrOpt row.codigo_cliente = true) :
    registrarErro db row eid Option.none msg = (db, Option.none, some msg) := by
  simp only [registrarErro, clienteParaErro]
  rw [if_neg ht]

theorem registrarErro_goc_none (db dbC : Db) (row : Row) (eid : Nat)
    (msg : String) (ht : pyTruthyStrOpt row.codigo_cliente = true)
    (hg : getOrCreateCliente db (clientePredErro row) (clienteNovoErro row) =
      (dbC, Option.none)) :
    registrarErro db row eid Option.none msg = (dbC, Option.none, some msg) := by
  simp only [registrarErro, clienteParaErro, ht, if_pos, hg]

theorem registrarErro_goc_upsome (db dbC dbU : Db) (row : Row) (eid cid : Nat)
    (msg : String) (ht : pyTruthyStrOpt row.codigo_cliente = true)
    (hg : getOrCreateCliente db (clientePredErro row) (clienteNovoErro row) =
      (dbC, some cid))
    (hu : upsertConsulta dbC eid cid (consultaPadraoErro row eid cid msg)
      (consultaEscreverErro row msg) = some dbU) :
    registrarErro db row eid Option.none msg = (dbU, Option.none, some msg) := by
  simp only [registrarErro, clienteParaErro, ht, if_pos, hg, hu]

theorem registrarErro_goc_upnone (db dbC : Db) (row : Row) (eid cid : Nat)
    (msg : String) (ht : pyTruthyStrOpt row.codigo_cliente = true)
    (hg : getOrCreateCliente db (clientePredErro row) (clienteNovoErro row) =
      (dbC, some cid))
    (hu : upsertConsulta dbC eid cid (consultaPadraoErro row eid cid msg)
      (consultaEscreverErro row msg) = Option.none) :
    registrarErro db row eid Option.none msg = (dbC, Option.none, some msg) := by
  simp only [registrarErro, clienteParaErro, ht, if_pos, hg, hu]

theorem registrarErro_some_upsome (db dbU : Db) (row : Row) (eid cid : Nat)
    (msg : String)
    (hu : upsertConsulta db eid cid (consultaPadraoErro row eid cid msg)
      (consultaEscreverErro row msg) = some dbU) :
    registrarErro db row eid (some cid) msg = (dbU, Option.none, some msg) := by
  simp only [registrarErro, clienteParaErro, hu]

theorem registrarErro_some_upnone (db : Db) (row : Row) (eid cid : Nat)
    (msg : String)
    (hu : upsertConsulta db eid cid (consultaPadraoErro row eid cid msg)
      (consultaEscreverErro row msg) = Option.none) :
    registrarErro db row eid (some cid) msg = (db, Option.none, some msg) := by
  simp only [registrarErro, clienteParaErro, hu]

theorem upsertConsulta_none_inv (db : Db) (eid cid : Nat)
    (dflt : ConsultaClienteRow) (esc : ConsultaClienteRow → ConsultaClienteRow)
    (h : upsertConsulta db eid cid dflt esc = Option.none) :
    ∃ x1 x2 t, db.consultas.filter (consultaKey eid cid) = x1 :: x2 :: t := by
  rcases hf : db.consultas.filter (consultaKey eid cid) with _ | ⟨x, xs⟩
  · rw [upsertConsulta_nil db eid cid dflt esc hf] at h
    exact absurd h (by simp)
  · rcases xs with _ | ⟨x2, t⟩
    · rw [upsertConsulta_one db eid cid dflt esc x hf] at h
      exact absurd h (by simp)
    · exact ⟨x, x2, t, rfl⟩

/-- The guarded invoice update does not change which clientes satisfy the
success-path key predicate. -/
theorem filter_predSucesso_update (row : Row) (cred cid : Nat) (fatura : Fatura)
    (l : List Cliente) :
    (l.map (fun c => if c.id = cid then atualizarFatura fatura c else c)).filter
        (clientePredSucesso row cred) =
      (l.filter (clientePredSucesso row cred)).map
        (fun c => if c.id = cid then atualizarFatura fatura c else c) := by
  apply filter_map_pred
  intro a
  by_cases h : a.id = cid <;> simp [h, atualizarFatura_predSucesso]

/-! Branch-by-branch reductions of the per-record processor. -/

theorem processar_red_nodata (dados : Option DadosApi) (row : Row)
    (eid cred : Nat) (db : Db) (hdt : dadosTruthy dados = false) :
    processar_cliente_api dados row eid cred db =
      registrarErro db row eid Option.none
        "Falha ao consultar dados na API - resposta vazia ou erro de conexao" := by
  simp only [processar_cliente_api, hdt, if_pos]

theorem processar_red_nofatura (dados : Option DadosApi) (row : Row)
    (eid cred : Nat) (db : Db) (hdt : ¬ dadosTruthy dados = false)
    (hob : obter_fatura_por_id dados row.id_fatura = Option.none) :
    processar_cliente_api dados row eid cred db =
      registrarErro db row eid Option.none
        ("Fatura " ++ pyStrOpt row.id_fatura ++
          " nao encontrada nos dados retornados pela API") := by
  simp only [processar_cliente_api, hob]
  rw [if_neg hdt]

theorem processar_red_nocodigo (dados : Option DadosApi) (fatura : Fatura)
    (row : Row) (eid cred : Nat) (db : Db) (hdt : ¬ dadosTruthy dados = false)
    (hob : obter_fatura_por_id dados row.id_fatura = some fatura)
    (hcod : row.codigo_cliente = Option.none) :
    processar_cliente_api dados row eid cred db =
      registrarErro db row eid Option.none
        ("Erro ao processar cliente " ++ pyStrOpt row.codigo_cliente ++
          ": IntegrityError") := by
  simp only [processar_cliente_api, hob, hcod]
  rw [if_neg hdt]

theorem processar_red_goc_none (dados : Option DadosApi) (fatura : Fatura)
    (row : Row) (eid cred : Nat) (db db1 : Db) (s : String)
    (hdt : ¬ dadosTruthy dados = false)
    (hob : obter_fatura_por_id dados row.id_fatura = some fatura)
    (hcod : row.codigo_cliente = some s)
    (hg : getOrCreateCliente db (clientePredSucesso row cred)
      (clienteNovoSucesso row cred) = (db1, Option.none)) :
    processar_cliente_api dados row eid cred db =
      registrarErro db1 row eid Option.none
        ("Erro ao processar cliente " ++ pyStrOpt row.codigo_cliente ++
          ": MultipleObjectsReturned") := by
  simp only [processar_cliente_api, hob, hcod, hg]
  rw [if_neg hdt]

theorem processar_red_success (dados : Option DadosApi) (fatura : Fatura)
    (row : Row) (eid cred : Nat) (db db1 db3 : Db) (cid : Nat) (s : String)
    (hdt : ¬ dadosTruthy dados = false)
    (hob : obter_fatura_por_id dados row.id_fatura = some fatura)
    (hcod : row.codigo_cliente = some s)
    (hg : getOrCreateCliente db (clientePredSucesso row cred)
      (clienteNovoSucesso row cred) = (db1, some cid))
    (hu : upsertConsulta (updateCliente db1 cid (atualizarFatura fatura)) eid
      cid (consultaPadraoSucesso dados row eid cid)
      (consultaEscreverSucesso dados row) = some db3) :
    processar_cliente_api dados row eid cred db = (db3, some cid, Option.none) := by
  simp only [processar_cliente_api, hob, hcod, hg, hu]
  rw [if_neg hdt]

theorem processar_red_success_upnone (dados : Option DadosApi) (fatura : Fatura)
    (row : Row) (eid cred : Nat) (db db1 : Db) (cid : Nat) (s : String)
    (hdt : ¬ dadosTruthy dados = false)
    (hob : obter_fatura_por_id dados row.id_fatura = some fatura)
    (hcod : row.codigo_cliente = some s)
    (hg : getOrCreateCliente db (clientePredSucesso row cred)
      (clienteNovoSucesso row cred) = (db1, some cid))
    (hu : upsertConsulta (updateCliente db1 cid (atualizarFatura fatura)) eid
      cid (consultaPadraoSucesso dados row eid cid)
      (consultaEscreverSucesso dados row) = Option.none) :
    processar_cliente_api dados row eid cred db =
      registrarErro (updateCliente db1 cid (atualizarFatura fatura)) row eid
        (some cid)
        ("Erro ao processar cliente " ++ pyStrOpt row.codigo_cliente ++
          ": MultipleObjectsReturned") := by
  simp only [processar_cliente_api, hob, hcod, hg, hu]
  rw [if_neg hdt]

/-- Running the except branch a second time on its own output changes
nothing: the cliente it found or created is found again, and the failed
result row it wrote is overwritten with the same values. -/
theorem registrarErro_stable (db : Db) (row : Row) (eid : Nat) (msg : String) :
    registrarErro ((registrarErro db row eid Option.none msg).1) row eid
        Option.none msg = registrarErro db row eid Option.none msg := by
  by_cases ht : pyTruthyStrOpt row.codigo_cliente = true
  · rcases hf : db.clientes.filter (clientePredErro row) with _ | ⟨c, cs⟩
    · obtain ⟨dbC, hg1, hCcl⟩ :
          ∃ dbC : Db, getOrCreateCliente db (clientePredErro row)
              (clienteNovoErro row) = (dbC, some db.nextClienteId) ∧
            dbC.clientes = db.clientes ++ [clienteNovoErro row db.nextClienteId] :=
        ⟨_, getOrCreateCliente_nil db _ _ hf, rfl⟩
      have hg2 : ∀ dbB : Db,
          dbB.clientes = db.clientes ++ [clienteNovoErro row db.nextClienteId] →
          getOrCreateCliente dbB (clientePredErro row) (clienteNovoErro row) =
            (dbB, some db.nextClienteId) := by
        intro dbB hB
        have hfB : dbB.clientes.filter (clientePredErro row) =
            [clienteNovoErro row db.nextClienteId] := by
          rw [hB, List.filter_append, hf, List.filter_cons]
          simp [clientePredErro_novo]
        exact getOrCreateCliente_one dbB (clientePredErro row)
          (clienteNovoErro row) _ hfB
      rcases hu : upsertConsulta dbC eid db.nextClienteId
          (consultaPadraoErro row eid db.nextClienteId msg)
          (consultaEscreverErro row msg) with _ | dbU
      · have h1 := registrarErro_goc_upnone db dbC row eid db.nextClienteId
          msg ht hg1 hu
        rw [h1]
        exact registrarErro_goc_upnone dbC dbC row eid db.nextClienteId msg ht
          (hg2 dbC hCcl) hu
      · have h1 := registrarErro_goc_upsome db dbC dbU row eid db.nextClienteId
          msg ht hg1 hu
        rw [h1]
        have hUcl : dbU.clientes =
            db.clientes ++ [clienteNovoErro row db.nextClienteId] := by
          rw [upsertConsulta_clientes dbC eid db.nextClienteId _ _ dbU hu, hCcl]
        have hu2 : upsertConsulta dbU eid db.nextClienteId
            (consultaPadraoErro row eid db.nextClienteId msg)
            (consultaEscreverErro row msg) = some dbU :=
          upsertConsulta_fixpoint dbC dbU dbU eid db.nextClienteId _ _
            (consultaPadraoErro_key row eid db.nextClienteId msg)
            (fun r => consultaEscreverErro_key row msg eid db.nextClienteId r)
            (consultaEscreverErro_padrao row eid db.nextClienteId msg)
            (fun r => consultaEscreverErro_idem row msg r) hu rfl
        exact registrarErro_goc_upsome dbU dbU dbU row eid db.nextClienteId msg
          ht (hg2 dbU hUcl) hu2
    · rcases cs with _ | ⟨c2, t⟩
      · have hg1 := getOrCreateCliente_one db (clientePredErro row)
          (clienteNovoErro row) c hf
        rcases hu : upsertConsulta db eid c.id
            (consultaPadraoErro row eid c.id msg)
            (consultaEscreverErro row msg) with _ | dbU
        · have h1 := registrarErro_goc_upnone db db row eid c.id msg ht hg1 hu
          rw [h1]
          exact h1
        · have h1 := registrarErro_goc_upsome db db dbU row eid c.id msg ht
            hg1 hu
          rw [h1]
          have hfU : dbU.clientes.filter (clientePredErro row) = [c] := by
            rw [upsertConsulta_clientes db eid c.id _ _ dbU hu, hf]
          have hg2 := getOrCreateCliente_one dbU (clientePredErro row)
            (clienteNovoErro row) c hfU
          have hu2 := upsertConsulta_fixpoint db dbU dbU eid c.id _ _
            (consultaPadraoErro_key row eid c.id msg)
            (fun r => consultaEscreverErro_key row msg eid c.id r)
            (consultaEscreverErro_padrao row eid c.id msg)
            (fun r => consultaEscreverErro_idem row msg r) hu rfl
          exact registrarErro_goc_upsome dbU dbU dbU row eid c.id msg ht hg2 hu2
      · have hg1 := getOrCreateCliente_many db (clientePredErro row)
          (clienteNovoErro row) c c2 t hf
        have h1 := registrarErro_goc_none db db row eid msg ht hg1
        rw [h1]
        exact h1
  · have h1 := registrarErro_not_truthy db row eid msg ht
    rw [h1]
    exact h1

/-- Re-running the per-record processor on its own output state returns the
very same state and outputs: on every branch the get_or_create finds exactly
the cliente of the first pass and the result-row upsert overwrites the row
it wrote with identical values. -/
theorem processar_cliente_api_idem (dados : Option DadosApi) (row : Row)
    (eid cred : Nat) (db : Db) :
    processar_cliente_api dados row eid cred
        ((processar_cliente_api dados row eid cred db).1) =
      processar_cliente_api dados row eid cred db := by
  by_cases hdt : dadosTruthy dados = false
  · rw [processar_red_nodata dados row eid cred db hdt,
        processar_red_nodata dados row eid cred _ hdt]
    exact registrarErro_stable db row eid _
  · rcases hob : obter_fatura_por_id dados row.id_fatura with _ | fatura
    · rw [processar_red_nofatura dados row eid cred db hdt hob,
          processar_red_nofatura dados row eid cred _ hdt hob]
      exact registrarErro_stable db row eid _
    · rcases hcod : row.codigo_cliente with _ | s
      · rw [processar_red_nocodigo dados fatura row eid cred db hdt hob hcod,
            processar_red_nocodigo dados fatura row eid cred _ hdt hob hcod]
        exact registrarErro_stable db row eid _
      · rcases hfS : db.clientes.filter (clientePredSucesso row cred)
            with _ | ⟨c, cs⟩
        · obtain ⟨db1, hg1, h1cl⟩ :
              ∃ db1 : Db, getOrCreateCliente db (clientePredSucesso row cred)
                  (clienteNovoSucesso row cred) = (db1, some db.nextClienteId) ∧
                db1.clientes = db.clientes ++
                  [clienteNovoSucesso row cred db.nextClienteId] :=
            ⟨_, getOrCreateCliente_nil db _ _ hfS, rfl⟩
          have hfilt1 : db1.clientes.filter (clientePredSucesso row cred) =
              [clienteNovoSucesso row cred db.nextClienteId] := by
            rw [h1cl, List.filter_append, hfS, List.filter_cons]
            simp [clientePredSucesso_novo]
          rcases hu : upsertConsulta
              (updateCliente db1 db.nextClienteId (atualizarFatura fatura)) eid
              db.nextClienteId
              (consultaPadraoSucesso dados row eid db.nextClienteId)
              (consultaEscreverSucesso dados row) with _ | db3
          · obtain ⟨x1, x2, t2, hfK⟩ := upsertConsulta_none_inv _ _ _ _ _ hu
            have huE : ∀ msg : String, upsertConsulta
                (updateCliente db1 db.nextClienteId (atualizarFatura fatura))
                eid db.nextClienteId
                (consultaPadraoErro row eid db.nextClienteId msg)
                (consultaEscreverErro row msg) = Option.none :=
              fun msg => upsertConsulta_many _ _ _ _ _ x1 x2 t2 hfK
            rw [processar_red_success_upnone dados fatura row eid cred db db1
                db.nextClienteId s hdt hob hcod hg1 hu]
            rw [registrarErro_some_upnone _ row eid db.nextClienteId _
                (huE ("Erro ao processar cliente " ++
                  pyStrOpt row.codigo_cliente ++ ": MultipleObjectsReturned"))]
            dsimp only
            have hf2 : (updateCliente db1 db.nextClienteId
                  (atualizarFatura fatura)).clientes.filter
                  (clientePredSucesso row cred) =
                [atualizarFatura fatura
                  (clienteNovoSucesso row cred db.nextClienteId)] := by
              rw [updateCliente_clientes, filter_predSucesso_update, hfilt1]
              simp [clienteNovoSucesso_id]
            have hg2 : getOrCreateCliente
                (updateCliente db1 db.nextClienteId (atualizarFatura fatura))
                (clientePredSucesso row cred) (clienteNovoSucesso row cred) =
                (updateCliente db1 db.nextClienteId (atualizarFatura fatura),
                  some db.nextClienteId) := by
              rw [getOrCreateCliente_one _ _ _ _ hf2, atualizarFatura_id,
                  clienteNovoSucesso_id]
            have hst : updateCliente
                (updateCliente db1 db.nextClienteId (atualizarFatura fatura))
                db.nextClienteId (atualizarFatura fatura) =
                updateCliente db1 db.nextClienteId (atualizarFatura fatura) :=
              updateCliente_stable _ db.nextClienteId _ db1.clientes
                (fun cc => atualizarFatura_id fatura cc)
                (fun cc => atualizarFatura_idem fatura cc) rfl
            have hu2 : upsertConsulta
                (updateCliente
                  (updateCliente db1 db.nextClienteId (atualizarFatura fatura))
                  db.nextClienteId (atualizarFatura fatura)) eid
                db.nextClienteId
                (consultaPadraoSucesso dados row eid db.nextClienteId)
                (consultaEscreverSucesso dados row) = Option.none := by
              rw [hst]
              exact upsertConsulta_many _ _ _ _ _ x1 x2 t2 hfK
            rw [processar_red_success_upnone dados fatura row eid cred _ _
                db.nextClienteId s hdt hob hcod hg2 hu2]
            rw [hst]
            exact registrarErro_some_upnone _ row eid db.nextClienteId _
              (huE ("Erro ao processar cliente " ++
                pyStrOpt row.codigo_cliente ++ ": MultipleObjectsReturned"))
          · rw [processar_red_success dados fatura row eid cred db db1 db3
                db.nextClienteId s hdt hob hcod hg1 hu]
            dsimp only
            have hcl3 : db3.clientes = db1.clientes.map
                (fun cc => if cc.id = db.nextClienteId
                  then atualizarFatura fatura cc else cc) := by
              rw [upsertConsulta_clientes _ eid db.nextClienteId _ _ db3 hu,
                  updateCliente_clientes]
            have hf3 : db3.clientes.filter (clientePredSucesso row cred) =
                [atualizarFatura fatura
                  (clienteNovoSucesso row cred db.nextClienteId)] := by
              rw [hcl3, filter_predSucesso_update, hfilt1]
              simp [clienteNovoSucesso_id]
            have hg2 : getOrCreateCliente db3 (clientePredSucesso row cred)
                (clienteNovoSucesso row cred) = (db3, some db.nextClienteId) := by
              rw [getOrCreateCliente_one _ _ _ _ hf3, atualizarFatura_id,
                  clienteNovoSucesso_id]
            have hst : updateCliente db3 db.nextClienteId
                (atualizarFatura fatura) = db3 :=
              updateCliente_stable db3 db.nextClienteId _ db1.clientes
                (fun cc => atualizarFatura_id fatura cc)
                (fun cc => atualizarFatura_idem fatura cc) hcl3
            have hu2 : upsertConsulta
                (updateCliente db3 db.nextClienteId (atualizarFatura fatura))
                eid db.nextClienteId
                (consultaPadraoSucesso dados row eid db.nextClienteId)
                (consultaEscreverSucesso dados row) = some db3 := by
              rw [hst]
              exact upsertConsulta_fixpoint
                (updateCliente db1 db.nextClienteId (atualizarFatura fatura))
                db3 db3 eid db.nextClienteId _ _
                (consultaPadraoSucesso_key dados row eid db.nextClienteId)
                (fun r => consultaEscreverSucesso_key dados row eid
                  db.nextClienteId r)
                (consultaEscreverSucesso_padrao dados row eid db.nextClienteId)
                (fun r => consultaEscreverSucesso_idem dados row r) hu rfl
            exact processar_red_success dados fatura row eid cred db3 db3 db3
              db.nextClienteId s hdt hob hcod hg2 hu2
        · rcases cs with _ | ⟨c2, t⟩
          · have hg1 := getOrCreateCliente_one db (clientePredSucesso row cred)
              (clienteNovoSucesso row cred) c hfS
            rcases hu : upsertConsulta
                (updateCliente db c.id (atualizarFatura fatura)) eid c.id
                (consultaPadraoSucesso dados row eid c.id)
                (consultaEscreverSucesso dados row) with _ | db3
            · obtain ⟨x1, x2, t2, hfK⟩ := upsertConsulta_none_inv _ _ _ _ _ hu
              have huE : ∀ msg : String, upsertConsulta
                  (updateCliente db c.id (atualizarFatura fatura)) eid c.id
                  (consultaPadraoErro row eid c.id msg)
                  (consultaEscreverErro row msg) = Option.none :=
                fun msg => upsertConsulta_many _ _ _ _ _ x1 x2 t2 hfK
              rw [processar_red_success_upnone dados fatura row eid cred db db
                  c.id s hdt hob hcod hg1 hu]
              rw [registrarErro_some_upnone _ row eid c.id _
                  (huE ("Erro ao processar cliente " ++
                    pyStrOpt row.codigo_cliente ++
                    ": MultipleObjectsReturned"))]
              dsimp only
              have hf2 : (updateCliente db c.id
                    (atualizarFatura fatura)).clientes.filter
                    (clientePredSucesso row cred) =
                  [atualizarFatura fatura c] := by
                rw [updateCliente_clientes, filter_predSucesso_update, hfS]
                simp
              have hg2 : getOrCreateCliente
                  (updateCliente db c.id (atualizarFatura fatura))
                  (clientePredSucesso row cred) (clienteNovoSucesso row cred) =
                  (updateCliente db c.id (atualizarFatura fatura),
                    some c.id) := by
                rw [getOrCreateCliente_one _ _ _ _ hf2, atualizarFatura_id]
              have hst : updateCliente
                  (updateCliente db c.id (atualizarFatura fatura)) c.id
                  (atualizarFatura fatura) =
                  updateCliente db c.id (atualizarFatura fatura) :=
                updateCliente_stable _ c.id _ db.clientes
                  (fun cc => atualizarFatura_id fatura cc)
                  (fun cc => atualizarFatura_idem fatura cc) rfl
              have hu2 : upsertConsulta
                  (updateCliente (updateCliente db c.id (atualizarFatura fatura))
                    c.id (atualizarFatura fatura)) eid c.id
                  (consultaPadraoSucesso dados row eid c.id)
                  (consultaEscreverSucesso dados row) = Option.none := by
                rw [hst]
                exact upsertConsulta_many _ _ _ _ _ x1 x2 t2 hfK
              rw [processar_red_success_upnone dados fatura row eid cred _ _
                  c.id s hdt hob hcod hg2 hu2]
              rw [hst]
              exact registrarErro_some_upnone _ row eid c.id _
                (huE ("Erro ao processar cliente " ++
                  pyStrOpt row.codigo_cliente ++ ": MultipleObjectsReturned"))
            · rw [processar_red_success dados fatura row eid cred db db db3
                  c.id s hdt hob hcod hg1 hu]
              dsimp only
              have hcl3 : db3.clientes = db.clientes.map
                  (fun cc => if cc.id = c.id then atualizarFatura fatura cc
                    else cc) := by
                rw [upsertConsulta_clientes _ eid c.id _ _ db3 hu,
                    updateCliente_clientes]
              have hf3 : db3.clientes.filter (clientePredSucesso row cred) =
                  [atualizarFatura fatura c] := by
                rw [hcl3, filter_predSucesso_update, hfS]
                simp
              have hg2 : getOrCreateCliente db3 (clientePredSucesso row cred)
                  (clienteNovoSucesso row cred) = (db3, some c.id) := by
                rw [getOrCreateCliente_one _ _ _ _ hf3, atualizarFatura_id]
              have hst : updateCliente db3 c.id (atualizarFatura fatura) = db3 :=
                updateCliente_stable db3 c.id _ db.clientes
                  (fun cc => atualizarFatura_id fatura cc)
                  (fun cc => atualizarFatura_idem fatura cc) hcl3
              have hu2 : upsertConsulta
                  (updateCliente db3 c.id (atualizarFatura fatura)) eid c.id
                  (consultaPadraoSucesso dados row eid c.id)
                  (consultaEscreverSucesso dados row) = some db3 := by
                rw [hst]
                exact upsertConsulta_fixpoint
                  (updateCliente db c.id (atualizarFatura fatura)) db3 db3 eid
                  c.id _ _ (consultaPadraoSucesso_key dados row eid c.id)
                  (fun r => consultaEscreverSucesso_key dados row eid c.id r)
                  (consultaEscreverSucesso_padrao dados row eid c.id)
                  (fun r => consultaEscreverSucesso_idem dados row r) hu rfl
              exact processar_red_success dados fatura row eid cred db3 db3 db3
                c.id s hdt hob hcod hg2 hu2
          · have hg1 := getOrCreateCliente_many db (clientePredSucesso row cred)
              (clienteNovoSucesso row cred) c c2 t hfS
            rw [processar_red_goc_none dados fatura row eid cred db db s hdt
                hob hcod hg1]
            have hfE : ((registrarErro db row eid Option.none
                  ("Erro ao processar cliente " ++ pyStrOpt row.codigo_cliente
                    ++ ": MultipleObjectsReturned")).1).clientes.filter
                  (clientePredSucesso row cred) = c :: c2 :: t := by
              rcases registrarErro_clientes db row eid Option.none
                  ("Erro ao processar cliente " ++ pyStrOpt row.codigo_cliente
                    ++ ": MultipleObjectsReturned") with hE | hE
              · rw [hE, hfS]
              · rw [hE, List.filter_append, hfS, List.filter_cons]
                simp [clientePredSucesso_novoErro]
            have hg2 := getOrCreateCliente_many _ (clientePredSucesso row cred)
              (clienteNovoSucesso row cred) c c2 t hfE
            rw [processar_red_goc_none dados fatura row eid cred _ _ s hdt hob
                hcod hg2]
            exact registrarErro_stable db row eid _

/-- The except branch preserves the uniqueness invariant of the result table. -/
theorem registrarErro_unicas (db : Db) (row : Row) (eid : Nat) (cs : Option Nat)
    (msg : String) (hn : ConsultasUnicas db) :
    ConsultasUnicas ((registrarErro db row eid cs msg).1) := by
  simp only [registrarErro]
  rcases hp : clienteParaErro db row cs with ⟨db1, o⟩
  have hc : db1.consultas = db.consultas := by
    have := clienteParaErro_consultas db row cs
    rw [hp] at this
    exact this
  have hn1 : ConsultasUnicas db1 := by
    unfold ConsultasUnicas consultasKeys
    rw [hc]
    exact hn
  cases o with
  | none => exact hn1
  | some cid =>
    simp only
    split
    next db2 hu =>
      refine upsertConsulta_unicas _ _ _ _ _ _ ?_ ?_ hu hn1
      · exact ⟨rfl, rfl⟩
      · exact fun r => ⟨rfl, rfl⟩
    next hu => exact hn1

/-- The per-record processor preserves the uniqueness invariant: for every
(run, cliente) pair at most one result row exists after processing, whenever
that held before. -/
theorem processar_cliente_api_unicas (dados : Option DadosApi) (row : Row)
    (eid cred : Nat) (db : Db) (hn : ConsultasUnicas db) :
    ConsultasUnicas ((processar_cliente_api dados row eid cred db).1) := by
  simp only [processar_cliente_api]
  by_cases hdt : dadosTruthy dados = false
  · rw [if_pos hdt]
    exact registrarErro_unicas _ _ _ _ _ hn
  · rw [if_neg hdt]
    split
    · exact registrarErro_unicas _ _ _ _ _ hn
    next fatura hob =>
      split
      · exact registrarErro_unicas _ _ _ _ _ hn
      next s hcod =>
        split
        next db1 hgoc =>
          have hcA : db1.consultas = db.consultas := by
            have h2 := congrArg (fun p => (p.1).consultas) hgoc
            simp only at h2
            rw [← h2]
            exact getOrCreateCliente_consultas _ _ _
          have hnA : ConsultasUnicas db1 := by
            unfold ConsultasUnicas consultasKeys
            rw [hcA]
            exact hn
          exact registrarErro_unicas _ _ _ _ _ hnA
        next db1 cid hgoc =>
          have hcA : db1.consultas = db.consultas := by
            have h2 := congrArg (fun p => (p.1).consultas) hgoc
            simp only at h2
            rw [← h2]
            exact getOrCreateCliente_consultas _ _ _
          have hnU : ConsultasUnicas db1 := by
            unfold ConsultasUnicas consultasKeys
            rw [hcA]
            exact hn
          split
          next db3 hu =>
            refine upsertConsulta_unicas _ _ _ _ _ _ ?_ ?_ hu hnU
            · exact ⟨rfl, rfl⟩
            · exact fun r => ⟨rfl, rfl⟩
          next hu => exact registrarErro_unicas _ _ _ _ _ hnU

/-- C1: the per-record processor upserts the (run, cliente) result row.
Starting from a state where every (execucao, cliente) pair indexes at most
one ConsultaCliente row, processing preserves that uniqueness, and
re-processing the same (run, row) pair on the resulting state updates the
existing rows in place — it returns the identical state and outputs rather
than inserting a second row. -/
theorem consulta_resultado_upsert_idempotente (dados : Option DadosApi)
    (row : Row) (eid cred : Nat) (db : Db) (h : ConsultasUnicas db) :
    ConsultasUnicas ((processar_cliente_api dados row eid cred db).1) ∧
    processar_cliente_api dados row eid cred
        ((processar_cliente_api dados row eid cred db).1) =
      processar_cliente_api dados row eid cred db :=
  ⟨processar_cliente_api_unicas dados row eid cred db h,
   processar_cliente_api_idem dados row eid cred db⟩

theorem consulta_resultado_upsert_idempotente_witness :
    ConsultasUnicas dbVazio ∧
    (ConsultasUnicas ((processar_cliente_api (some (dadosDe "1")) rowUm 1 7
        dbVazio).1) ∧
     processar_cliente_api (some (dadosDe "1")) rowUm 1 7
        ((processar_cliente_api (some (dadosDe "1")) rowUm 1 7 dbVazio).1) =
      processar_cliente_api (some (dadosDe "1")) rowUm 1 7 dbVazio) :=
  ⟨by unfold ConsultasUnicas consultasKeys; decide,
   consulta_resultado_upsert_idempotente (some (dadosDe "1")) rowUm 1 7 dbVazio
     (by unfold ConsultasUnicas consultasKeys; decide)⟩

/-- C4 (code bug): on the failure-recording path the processor creates the
ClienteConsultado by codigo alone; for a run whose credential is 7, a lookup
failure on a fresh database creates a cliente row with credencial_banco =
None instead of the credential of the run, while the success path on the same
row attaches credencial 7.  This contradicts both the claim and the models
own unique key (codigo_cliente, credencial_banco). -/
theorem processar_erro_cria_cliente_sem_credencial :
    ((processar_cliente_api Option.none rowUm 1 7 dbVazio).1.clientes.map
      (fun c => (c.codigo_cliente, c.credencial_banco))) = [(some "1", Option.none)] ∧
    ((processar_cliente_api Option.none rowUm 1 7 dbVazio).1.consultas.map
      (fun r => (r.execucao, r.cliente, r.sucesso_api))) = [(1, 0, false)] ∧
    ((processar_cliente_api (some (dadosDe "1")) rowUm 1 7 dbVazio).1.clientes.map
      (fun c => (c.codigo_cliente, c.credencial_banco))) = [(some "1", some 7)] := by
  refine ⟨by decide, by decide, by decide⟩

/-! ### Claim C6: terminal status of the messaging dispatch loop -/

/-- When no check of the loop reads cancelado, the last refreshed in-memory
status is not cancelado either. -/
theorem loopEnvio_no_cancel (env : EnvioEnv) (setup : EnvioSetup) (total : Nat) :
    ∀ (inds : List EnvioInd) (idx : Nat) (envc errc : Nat)
      (flushed : Nat × Nat × Nat) (inMem : MStatus),
      (∀ i, idx ≤ i → i < idx + inds.length → env.statusAt i ≠ MStatus.cancelado) →
      inMem ≠ MStatus.cancelado →
      (loopEnvio env setup total idx inds envc errc flushed inMem).2.2.2.2 ≠
        MStatus.cancelado := by
  intro inds
  induction inds with
  | nil =>
    intro idx envc errc flushed inMem h hin
    simpa [loopEnvio] using hin
  | cons ind rest ih =>
    intro idx envc errc flushed inMem h hin
    have hidx : env.statusAt idx ≠ MStatus.cancelado :=
      h idx (le_refl _) (by simp only [List.length_cons]; omega)
    simp only [loopEnvio, if_neg hidx]
    exact ih (idx + 1) _ _ _ _
      (fun i hi1 hi2 => h i (by omega) (by simp only [List.length_cons]; omega)) hidx

/-- When the first check that reads cancelado is k, the loop breaks there and
the last refreshed in-memory status is cancelado. -/
theorem loopEnvio_cancel (env : EnvioEnv) (setup : EnvioSetup) (total : Nat) :
    ∀ (inds : List EnvioInd) (idx k : Nat) (envc errc : Nat)
      (flushed : Nat × Nat × Nat) (inMem : MStatus),
      idx ≤ k → k < idx + inds.length →
      env.statusAt k = MStatus.cancelado →
      (∀ j, idx ≤ j → j < k → env.statusAt j ≠ MStatus.cancelado) →
      (loopEnvio env setup total idx inds envc errc flushed inMem).2.2.2.2 =
        MStatus.cancelado := by
  intro inds
  induction inds with
  | nil =>
    intro idx k envc errc flushed inMem h1 h2 h3 h4
    simp only [List.length_nil] at h2
    omega
  | cons ind rest ih =>
    intro idx k envc errc flushed inMem h1 h2 h3 h4
    by_cases hik : idx = k
    · subst hik
      simp [loopEnvio, h3]
    · have hlt : idx < k := lt_of_le_of_ne h1 hik
      have hidx : env.statusAt idx ≠ MStatus.cancelado := h4 idx (le_refl _) hlt
      simp only [loopEnvio, if_neg hidx]
      exact ih (idx + 1) k _ _ _ _ (by omega)
        (by simp only [List.length_cons] at h2; omega) h3
        (fun j hj1 hj2 => h4 j (by omega) hj2)

/-- C6: with at least one eligible client, if the dispatch loop finishes with
cancellation never observed, the terminal status of the MessagingRun is
concluido regardless of the per-item outcomes (the error count does not
change the terminal state); and if some check observes cancelado first, the
loop breaks and the persisted status remains cancelado, never overwritten. -/
theorem envio_hsm_status_final (env : EnvioEnv) (setup : EnvioSetup)
    (clientes : List (Nat × ClienteDados)) (hne : clientes ≠ []) :
    ((∀ i, i < clientes.length → env.statusAt i ≠ MStatus.cancelado) →
      (processar_envio_hsm_background env setup clientes).1.status_envio =
        MStatus.concluido) ∧
    (∀ k, k < clientes.length → env.statusAt k = MStatus.cancelado →
      (∀ j, j < k → env.statusAt j ≠ MStatus.cancelado) →
      (processar_envio_hsm_background env setup clientes).1.status_envio =
        MStatus.cancelado) := by
  have htot : ¬ (clientes.length = 0) := by
    cases clientes with
    | nil => exact absurd rfl hne
    | cons a l => simp
  constructor
  · intro h
    have hloop := loopEnvio_no_cancel env setup clientes.length
      (clientes.map (fun cd =>
        ({ cliente := cd.1, status := IStatus.pendente, resposta_api := Option.none,
           erro_detalhado := Option.none, template_usado := TemplateUsado.principal,
           tentativas := 0,
           variaveis_utilizadas := mapear_campos_cliente_para_hsm cd.2 } : EnvioInd)))
      0 0 0 (0, 0, 0) MStatus.enviando
      (fun i hi1 hi2 => h i (by simpa using hi2))
      (by simp)
    simp only [processar_envio_hsm_background, if_neg htot]
    rw [if_pos hloop]
  · intro k hk h3 h4
    have hloop := loopEnvio_cancel env setup clientes.length
      (clientes.map (fun cd =>
        ({ cliente := cd.1, status := IStatus.pendente, resposta_api := Option.none,
           erro_detalhado := Option.none, template_usado := TemplateUsado.principal,
           tentativas := 0,
           variaveis_utilizadas := mapear_campos_cliente_para_hsm cd.2 } : EnvioInd)))
      0 k 0 0 (0, 0, 0) MStatus.enviando (Nat.zero_le _) (by simpa using hk) h3
      (fun j hj1 hj2 => h4 j hj2)
    simp only [processar_envio_hsm_background, if_neg htot]
    rw [if_neg (by simp only [ne_eq, not_not]; exact hloop)]

/-- C6 witness: a dispatch over two clients with one error and no observed
cancellation ends concluido with error count 1, and a dispatch cancelled at
the second check ends cancelado. -/
theorem envio_hsm_status_final_witness :
    (processar_envio_hsm_background envEnvioComErro setupEx
        [(0, clienteDadosEx), (1, clienteDadosEx)]).1.status_envio =
      MStatus.concluido ∧
    (processar_envio_hsm_background envEnvioComErro setupEx
        [(0, clienteDadosEx), (1, clienteDadosEx)]).1.total_erros = 1 ∧
    (processar_envio_hsm_background envEnvioCancela1 setupEx
        [(0, clienteDadosEx), (1, clienteDadosEx), (2, clienteDadosEx)]).1.status_envio
      = MStatus.cancelado := by
  refine ⟨?_, by decide, ?_⟩
  · exact (envio_hsm_status_final envEnvioComErro setupEx
      [(0, clienteDadosEx), (1, clienteDadosEx)] (by simp)).1
      (fun i hi => by simp [envEnvioComErro])
  · exact (envio_hsm_status_final envEnvioCancela1 setupEx
      [(0, clienteDadosEx), (1, clienteDadosEx), (2, clienteDadosEx)] (by simp)).2
      1 (by decide) (by decide)
      (fun j hj => by
        have hj0 : j = 0 := by omega
        subst hj0
        decide)

/-! ### Claim C3: extraction and re-scan of the substituted output -/

theorem takeWhile_all_append (p : Char → Bool) :
    ∀ (xs : List Char) (y : Char) (ys : List Char), xs.all p = true →
      p y = false →
      (xs ++ y :: ys).takeWhile p = xs ∧ (xs ++ y :: ys).dropWhile p = y :: ys := by
  intro xs
  induction xs with
  | nil =>
    intro y ys _ hy
    simp [List.takeWhile_cons, List.dropWhile_cons, hy]
  | cons a t ih =>
    intro y ys hall hy
    simp only [List.all_cons, Bool.and_eq_true] at hall
    have iht := ih y ys hall.2 hy
    simp [List.takeWhile_cons, List.dropWhile_cons, hall.1, iht.1, iht.2]

/-- The padded plain pattern at an identifier placeholder produces the name. -/
theorem p2At_ph (n tail : List Char) (hn : identOk n = true) :
    p2At (phOf n ++ tail) = some n := by
  obtain ⟨c0, r0, hn0, hstart, hrall⟩ := identOk_head n hn
  subst hn0
  have htd := takeWhile_all_append isIdentChar r0 rbrace (rbrace :: tail) hrall
    (by decide)
  have hws1 : wsCount (c0 :: (r0 ++ rbrace :: rbrace :: tail)) = 0 :=
    wsCount_cons_false c0 _
      (identChar_not_ws c0 (identStart_identChar c0 hstart))
  have hws3 : wsCount (rbrace :: rbrace :: tail) = 0 :=
    wsCount_cons_false _ _ (by decide)
  rw [phOf_cons]
  simp only [p2At, List.cons_append]
  rw [if_pos ⟨trivial, trivial⟩, hws1]
  simp only [List.drop_zero]
  rw [if_pos hstart, htd.1, htd.2, hws3]
  simp only [List.drop_zero]
  rw [if_pos ⟨trivial, trivial⟩]

/-- The relaxed exact pattern at an identifier placeholder also produces the
name (identifier characters are hyphen free, so both runs agree). -/
theorem p3At_ph (n tail : List Char) (hn : identOk n = true) :
    p3At (phOf n ++ tail) = some n := by
  obtain ⟨c0, r0, hn0, hstart, hrall⟩ := identOk_head n hn
  subst hn0
  have hrallH : r0.all isIdentCharH = true := by
    simp only [List.all_eq_true] at hrall ⊢
    intro c hc
    simp [isIdentCharH, hrall c hc]
  have htd := takeWhile_all_append isIdentCharH r0 rbrace (rbrace :: tail)
    hrallH (by decide)
  rw [phOf_cons]
  simp only [p3At, List.cons_append]
  rw [if_pos ⟨trivial, trivial⟩]
  rw [if_pos hstart, htd.2, htd.1]
  simp

theorem p2At_fail1 (c : Char) (s : List Char) (h : ¬ c = lbrace) :
    p2At (c :: s) = none := by
  cases s with
  | nil => rfl
  | cons c2 t =>
    simp only [p2At]
    rw [if_neg (fun hh => h hh.1)]

theorem p2At_fail2 (c : Char) (s : List Char) (h : ¬ c = lbrace) :
    p2At (lbrace :: c :: s) = none := by
  simp only [p2At]
  rw [if_neg (fun hh => h hh.2)]

theorem p3At_fail1 (c : Char) (s : List Char) (h : ¬ c = lbrace) :
    p3At (c :: s) = none := by
  cases s with
  | nil => rfl
  | cons c2 t =>
    simp only [p3At]
    rw [if_neg (fun hh => h hh.1)]

theorem p3At_fail2 (c : Char) (s : List Char) (h : ¬ c = lbrace) :
    p3At (lbrace :: c :: s) = none := by
  simp only [p3At]
  rw [if_neg (fun hh => h hh.2)]

/-- Inside a placeholder (past its first character) neither extraction
pattern matches. -/
theorem suffix_fail_ph_tail (m : List Char → Option (List Char))
    (hfst : ∀ (c : Char) (s : List Char), ¬ c = lbrace → m (c :: s) = none)
    (hsnd : ∀ (c : Char) (s : List Char), ¬ c = lbrace →
      m (lbrace :: c :: s) = none)
    (n rest : List Char) (hn : identOk n = true) :
    ∀ t', t' <:+ (lbrace :: (n ++ [rbrace, rbrace])) → t' ≠ [] →
      m (t' ++ rest) = none := by
  intro t2 hsuf hne
  rcases List.suffix_cons_iff.mp hsuf with heq | hsuf3
  · subst heq
    obtain ⟨c0, r0, hn0, hstart, hrall⟩ := identOk_head n hn
    rw [hn0]
    exact hsnd c0 ((r0 ++ [rbrace, rbrace]) ++ rest)
      (identChar_ne_lbrace c0 (identStart_identChar c0 hstart))
  · cases t2 with
    | nil => exact absurd rfl hne
    | cons c tt =>
      have hc : c ∈ n ++ [rbrace, rbrace] := hsuf3.subset (by simp)
      have hcne : ¬ c = lbrace := by
        rcases List.mem_append.mp hc with hcn | hcb
        · refine identChar_ne_lbrace c ?_
          have hall := identOk_all n hn
          simp only [List.all_eq_true] at hall
          exact hall c hcn
        · simp only [List.mem_cons, List.not_mem_nil, or_false] at hcb
          rcases hcb with h | h <;> (subst h; decide)
      exact hfst c (tt ++ rest) hcne

theorem scanNames_cons (c : Char) (s : List Char) :
    scanNames (c :: s) =
      ((match p2At (c :: s) with | some n => [n] | none => []) ++
        (match p3At (c :: s) with | some n => [n] | none => [])) ++
          scanNames s := by
  simp only [scanNames]

theorem scanNames_skip : ∀ (t rest : List Char),
    (∀ t', t' <:+ t → t' ≠ [] → p2At (t' ++ rest) = none) →
    (∀ t', t' <:+ t → t' ≠ [] → p3At (t' ++ rest) = none) →
    scanNames (t ++ rest) = scanNames rest := by
  intro t
  induction t with
  | nil =>
    intro rest _ _
    rfl
  | cons c ct ih =>
    intro rest h2 h3
    have h20 : p2At (c :: (ct ++ rest)) = none :=
      h2 (c :: ct) (List.suffix_refl _) (by simp)
    have h30 : p3At (c :: (ct ++ rest)) = none :=
      h3 (c :: ct) (List.suffix_refl _) (by simp)
    rw [List.cons_append, scanNames_cons, h20, h30]
    simp only [List.nil_append]
    exact ih rest
      (fun t2 ht2 hne => h2 t2 (ht2.trans (List.suffix_cons c ct)) hne)
      (fun t2 ht2 hne => h3 t2 (ht2.trans (List.suffix_cons c ct)) hne)

theorem scanNames_ph (n rest : List Char) (hn : identOk n = true) :
    scanNames (phOf n ++ rest) = n :: n :: scanNames rest := by
  have h2 : p2At (phOf n ++ rest) = some n := p2At_ph n rest hn
  have h3 : p3At (phOf n ++ rest) = some n := p3At_ph n rest hn
  have htail : scanNames ((lbrace :: (n ++ [rbrace, rbrace])) ++ rest) =
      scanNames rest :=
    scanNames_skip _ rest
      (suffix_fail_ph_tail p2At (fun c s hc => p2At_fail1 c s hc)
        (fun c s hc => p2At_fail2 c s hc) n rest hn)
      (suffix_fail_ph_tail p3At (fun c s hc => p3At_fail1 c s hc)
        (fun c s hc => p3At_fail2 c s hc) n rest hn)
  have hstep : phOf n ++ rest =
      lbrace :: ((lbrace :: (n ++ [rbrace, rbrace])) ++ rest) := by
    simp [phOf]
  rw [hstep] at h2 h3 ⊢
  rw [scanNames_cons, h2, h3, htail]
  rfl

/-- Scanning a shaped text yields exactly its placeholder names, each seen by
both extraction patterns. -/
theorem scanNames_render : ∀ l : List Item, itemsOk l = true →
    scanNames (render l) = dupNames (namesOf l) := by
  intro l
  induction l with
  | nil =>
    intro _
    rfl
  | cons it rest ih =>
    intro hok
    simp only [itemsOk, List.all_cons, Bool.and_eq_true] at hok
    have ihr := ih hok.2
    cases it with
    | txt t =>
      rw [show render (Item.txt t :: rest) = t ++ render rest from rfl,
        scanNames_skip t (render rest)
          (suffix_fail_txt p2At (fun c s hc => p2At_fail1 c s hc) t
            (render rest) hok.1)
          (suffix_fail_txt p3At (fun c s hc => p3At_fail1 c s hc) t
            (render rest) hok.1),
        ihr]
      rfl
    | ph n =>
      rw [show render (Item.ph n :: rest) = phOf n ++ render rest from rfl,
        scanNames_ph n (render rest) hok.1, ihr]
      rfl

theorem mem_dupNames (x : List Char) :
    ∀ ns : List (List Char), x ∈ dupNames ns ↔ x ∈ ns := by
  intro ns
  induction ns with
  | nil => simp [dupNames]
  | cons a t ih =>
    simp only [dupNames, List.mem_cons, ih]
    tauto

theorem dropWhile_all_false (p : Char → Bool) (l : List Char)
    (h : ∀ c ∈ l, p c = false) : l.dropWhile p = l := by
  cases l with
  | nil => rfl
  | cons c t => simp [List.dropWhile_cons, h c (by simp)]

theorem pyStripL_id (n : List Char) (h : ∀ c ∈ n, isWs c = false) :
    pyStripL n = n := by
  unfold pyStripL
  rw [dropWhile_all_false isWs n h,
    dropWhile_all_false isWs n.reverse (fun c hc => h c (List.mem_reverse.mp hc)),
    List.reverse_reverse]

theorem identOk_strip (n : List Char) (h : identOk n = true) :
    pyStripL n = n := by
  refine pyStripL_id n (fun c hc => identChar_not_ws c ?_)
  have hall := identOk_all n h
  simp only [List.all_eq_true] at hall
  exact hall c hc

theorem namesOf_identOk : ∀ (l : List Item), itemsOk l = true →
    ∀ n ∈ namesOf l, identOk n = true := by
  intro l
  induction l with
  | nil =>
    intro _ n hn
    simp [namesOf] at hn
  | cons it rest ih =>
    intro hok n hn
    simp only [itemsOk, List.all_cons, Bool.and_eq_true] at hok
    cases it with
    | txt t => exact ih hok.2 n hn
    | ph n2 =>
      simp only [namesOf, List.mem_cons] at hn
      rcases hn with h | h
      · subst h
        exact hok.1
      · exact ih hok.2 n h

theorem render_nil_namesOf : ∀ l : List Item, render l = [] →
    namesOf l = [] := by
  intro l
  induction l with
  | nil =>
    intro _
    rfl
  | cons it rest ih =>
    intro h
    cases it with
    | txt t =>
      simp only [render, List.append_eq_nil] at h
      simp only [namesOf]
      exact ih h.2
    | ph n =>
      simp only [render, List.append_eq_nil, phOf] at h
      exact absurd h.1 (by simp)

/-- Membership in the extracted variable list of a shaped text is exactly
membership among its placeholder names. -/
theorem extrair_render_mem (l : List Item) (hl : itemsOk l = true)
    (nm : String) :
    nm ∈ extrair_variaveis_do_sql (String.mk (render l)) ↔
      ∃ n ∈ namesOf l, nm = String.mk n := by
  by_cases hre : render l = []
  · have hnames := render_nil_namesOf l hre
    rw [hre, hnames]
    have hempty : extrair_variaveis_do_sql (String.mk []) = [] := by
      unfold extrair_variaveis_do_sql
      rw [if_pos (by decide)]
    rw [hempty]
    simp
  · have hemp : ¬ (String.mk (render l)).isEmpty = true := by
      intro hie
      have h2 : String.mk (render l) = "" := (String.isEmpty_iff _).mp hie
      have h3 : render l = [] := congrArg String.data h2
      exact hre h3
    unfold extrair_variaveis_do_sql
    rw [if_neg hemp]
    dsimp only
    rw [List.mem_mergeSort, List.mem_dedup, scanNames_render l hl]
    constructor
    · intro hmem
      rcases List.mem_map.mp hmem with ⟨n0, hn0, heq⟩
      rcases List.mem_filter.mp hn0 with ⟨hn0m, hn0e⟩
      rcases List.mem_map.mp hn0m with ⟨n1, hn1, hstrip⟩
      have hn1mem : n1 ∈ namesOf l := (mem_dupNames n1 (namesOf l)).mp hn1
      have hid : identOk n1 = true := namesOf_identOk l hl n1 hn1mem
      refine ⟨n1, hn1mem, ?_⟩
      rw [← heq, ← hstrip, identOk_strip n1 hid]
    · rintro ⟨n1, hn1mem, heq⟩
      have hid := namesOf_identOk l hl n1 hn1mem
      refine List.mem_map.mpr ⟨n1, List.mem_filter.mpr ⟨?_, ?_⟩, heq.symm⟩
      · exact List.mem_map.mpr ⟨n1, (mem_dupNames n1 _).mpr hn1mem,
          identOk_strip n1 hid⟩
      · cases n1 with
        | nil => exact absurd hid (by simp [identOk])
        | cons c r => simp

theorem restAt_fail1 (c : Char) (s : List Char) (h : ¬ c = lbrace) :
    restAt (c :: s) = none := by
  cases s with
  | nil => rfl
  | cons c2 t =>
    simp only [restAt]
    rw [if_neg (fun hh => h hh.1)]

/-- A text with no opening brace has no unsubstituted placeholder residue. -/
theorem scanRestantes_no_lb : ∀ s : List Char, (∀ c ∈ s, ¬ c = lbrace) →
    scanRestantes s = [] := by
  intro s
  induction s with
  | nil =>
    intro _
    rfl
  | cons c t ih =>
    intro h
    simp only [scanRestantes, restAt_fail1 c t (h c (by simp)),
      List.nil_append]
    exact ih (fun c2 hc2 => h c2 (by simp [hc2]))

theorem lookupCi_val_mem : ∀ (vs : List (List Char × List Char))
    (n v : List Char), lookupCi vs n = some v → ∃ kv ∈ vs, kv.2 = v := by
  intro vs
  induction vs with
  | nil =>
    intro n v h
    cases h
  | cons kv t ih =>
    intro n v h
    obtain ⟨k0, v0⟩ := kv
    simp only [lookupCi] at h
    split at h
    · simp only [Option.some.injEq] at h
      exact ⟨(k0, v0), by simp, h⟩
    · rcases ih n v h with ⟨kv2, hm, he⟩
      exact ⟨kv2, by simp [hm], he⟩

theorem lookupCi_isSome_of : ∀ (vs : List (List Char × List Char))
    (n : List Char), (∃ kv ∈ vs, ciListEq kv.1 n = true) →
    ∃ v, lookupCi vs n = some v := by
  intro vs
  induction vs with
  | nil =>
    intro n h
    rcases h with ⟨kv, hm, _⟩
    simp at hm
  | cons kv t ih =>
    intro n h
    obtain ⟨k0, v0⟩ := kv
    simp only [lookupCi]
    by_cases hc : ciListEq k0 n = true
    · rw [if_pos hc]
      exact ⟨v0, rfl⟩
    · rw [if_neg hc]
      rcases h with ⟨kv2, hm, he⟩
      rcases List.mem_cons.mp hm with h2 | h2
      · subst h2
        exact absurd he hc
      · exact ih n ⟨kv2, h2, he⟩

/-- A fully resolved shaped text contains no opening brace. -/
theorem render_resolved_no_lb (vs : List (List Char × List Char))
    (hvs : ∀ kv ∈ vs, braceFree kv.2 = true) :
    ∀ (l : List Item), itemsOk l = true →
      (∀ n ∈ namesOf l, ∃ v, lookupCi vs n = some v) →
      ∀ c ∈ render (l.map (resolveItem vs)), ¬ c = lbrace := by
  intro l
  induction l with
  | nil =>
    intro _ _ c hc
    simp [render] at hc
  | cons it rest ih =>
    intro hok hcov c hc
    simp only [itemsOk, List.all_cons, Bool.and_eq_true] at hok
    cases it with
    | txt t =>
      simp only [List.map_cons, resolveItem, render] at hc
      rcases List.mem_append.mp hc with h1 | h1
      · have hb := hok.1
        simp only [itemOk, braceFree, List.all_eq_true, Bool.and_eq_true,
          Bool.not_eq_true', decide_eq_false_iff_not] at hb
        exact (hb c h1).1
      · exact ih hok.2 (fun n hn => hcov n (by simp [namesOf, hn])) c h1
    | ph n =>
      obtain ⟨v, hv⟩ := hcov n (by simp [namesOf])
      simp only [List.map_cons, resolveItem, hv, render] at hc
      rcases List.mem_append.mp hc with h1 | h1
      · rcases lookupCi_val_mem vs n v hv with ⟨kv, hm, he⟩
        have hb := hvs kv hm
        rw [he] at hb
        simp only [braceFree, List.all_eq_true, Bool.and_eq_true,
          Bool.not_eq_true', decide_eq_false_iff_not] at hb
        exact (hb c h1).1
      · exact ih hok.2 (fun n2 hn2 => hcov n2 (by simp [namesOf, hn2])) c h1

/-- C3: for every SQL text the extracted variable list is sorted ascending
and duplicate free; and on a shaped SQL text (brace-free chunks and exact
identifier placeholders) with brace-free values, supplying a value for every
extracted name leaves no placeholder residue in the substituted output. -/
theorem extrair_ordenada_e_substituicao_sem_residuo :
    (∀ sql : String,
      List.Sorted (fun a b : String => a ≤ b) (extrair_variaveis_do_sql sql) ∧
      (extrair_variaveis_do_sql sql).Nodup) ∧
    (∀ (l : List Item) (valores : List (String × String)),
      itemsOk l = true →
      (∀ kv ∈ valores, identOk kv.1.data = true ∧
        braceFree kv.2.data = true) →
      (∀ nm ∈ extrair_variaveis_do_sql (String.mk (render l)),
        ∃ kv ∈ valores, kv.1 = nm) →
      scanRestantes
        (substituir_variaveis (String.mk (render l)) valores).data = []) := by
  constructor
  · intro sql
    unfold extrair_variaveis_do_sql
    split
    · exact ⟨List.sorted_nil, List.nodup_nil⟩
    · constructor
      · have hs := @List.sorted_mergeSort String
          (fun a b : String => decide (a ≤ b))
          (fun a b c hab hbc =>
            decide_eq_true (le_trans (of_decide_eq_true hab)
              (of_decide_eq_true hbc)))
          (fun a b => by
            show (decide (a ≤ b) || decide (b ≤ a)) = true
            rcases le_total a b with h | h
            · rw [decide_eq_true h, Bool.true_or]
            · rw [decide_eq_true h, Bool.or_true])
          ((((scanNames sql.data).map pyStripL).filter
            (fun n => !n.isEmpty)).map String.mk).dedup
        exact List.Pairwise.imp (fun hab => of_decide_eq_true hab) hs
      · have hperm := List.mergeSort_perm
          ((((scanNames sql.data).map pyStripL).filter
            (fun n => !n.isEmpty)).map String.mk).dedup
          (fun a b : String => decide (a ≤ b))
        exact hperm.nodup_iff.mpr (List.nodup_dedup _)
  · intro l valores hl hkv hcover
    have hcov2 : ∀ n ∈ namesOf l, ∃ v, lookupCi (pdata valores) n = some v := by
      intro n hn
      have hmem : String.mk n ∈
          extrair_variaveis_do_sql (String.mk (render l)) :=
        (extrair_render_mem l hl (String.mk n)).mpr ⟨n, hn, rfl⟩
      rcases hcover _ hmem with ⟨kv, hkvmem, hkeq⟩
      apply lookupCi_isSome_of
      refine ⟨(kv.1.data, kv.2.data), List.mem_map.mpr ⟨kv, hkvmem, rfl⟩, ?_⟩
      have hd : kv.1.data = n := by rw [hkeq]
      rw [hd]
      exact ciListEq_refl n
    rcases hv : valores with _ | ⟨kv0, vs0⟩
    · subst hv
      have hsub : substituir_variaveis (String.mk (render l)) [] =
          String.mk (render l) := rfl
      rw [hsub]
      apply scanRestantes_no_lb
      have hres := render_resolved_no_lb ([] : List (List Char × List Char))
        (by simp) l hl (by simpa [pdata] using hcov2)
      have hid : l.map (resolveItem []) = l := by
        have hmap : l.map (resolveItem []) = l.map id :=
          List.map_congr_left (fun it _ => by cases it <;> rfl)
        rw [hmap, List.map_id]
      rw [hid] at hres
      exact hres
    · rw [← hv]
      have hne : valores ≠ [] := by rw [hv]; simp
      rw [substituir_variaveis_render l valores hl hkv hne]
      apply scanRestantes_no_lb
      refine render_resolved_no_lb (pdata valores) ?_ l hl hcov2
      intro kv h
      rcases List.mem_map.mp h with ⟨kv0b, h0, he⟩
      subst he
      exact (hkv kv0b h0).2

/-- C3 (counterexample): the digit placeholder is recognised by none of the
extraction patterns, so the extracted list of this SQL is empty; every
extracted name trivially has a value, yet the substituted output still
carries the placeholder, which the residue re-scan finds. -/
theorem extrair_residuo_cex :
    extrair_variaveis_do_sql "\x7b\x7b1\x7d\x7d" = [] ∧
    substituir_variaveis "\x7b\x7b1\x7d\x7d" [] = "\x7b\x7b1\x7d\x7d" ∧
    scanRestantes (substituir_variaveis "\x7b\x7b1\x7d\x7d" []).data =
      [['1']] := by
    refine ⟨?_, rfl, by decide⟩
    unfold extrair_variaveis_do_sql
    rw [if_neg (by decide)]
    dsimp only
    rw [show (((scanNames ("\x7b\x7b1\x7d\x7d").data).map pyStripL).filter
      (fun n => !n.isEmpty)) = [] from by decide]
    simp

theorem extrair_ordenada_e_substituicao_sem_residuo_witness :
    (List.Sorted (fun a b : String => a ≤ b)
        (extrair_variaveis_do_sql "SELECT 1") ∧
      (extrair_variaveis_do_sql "SELECT 1").Nodup) ∧
    scanRestantes (substituir_variaveis (String.mk (render lItemEx))
      [("a", "1"), ("b", "2")]).data = [] := by
  refine ⟨extrair_ordenada_e_substituicao_sem_residuo.1 "SELECT 1",
    extrair_ordenada_e_substituicao_sem_residuo.2 lItemEx
      [("a", "1"), ("b", "2")] (by decide) (by decide) ?_⟩
  intro nm hmem
  rcases (extrair_render_mem lItemEx (by decide) nm).mp hmem with ⟨n, hn, heq⟩
  have hns : namesOf lItemEx = ["a".data, "b".data] := by decide
  rw [hns] at hn
  simp only [List.mem_cons, List.not_mem_nil, or_false] at hn
  rcases hn with h | h
  · exact ⟨("a", "1"), by simp, by rw [heq, h]⟩
  · exact ⟨("b", "2"), by simp, by rw [heq, h]⟩

/-! ### Claim C8: order sensitivity of substituir_variaveis -/

/-- C8 (counterexample): two keys that differ only in letter case collide
under re.IGNORECASE, and then the enumeration order of the dict decides which
value wins: the same pair set in its two insertion orders produces different
outputs on the same SQL. -/
theorem substituir_variaveis_ordem_cex :
    [("a", "1"), ("A", "2")].Perm [("A", "2"), ("a", "1")] ∧
    substituir_variaveis "\x7b\x7ba\x7d\x7d" [("a", "1"), ("A", "2")] = "1" ∧
    substituir_variaveis "\x7b\x7ba\x7d\x7d" [("A", "2"), ("a", "1")] = "2" := by
  refine ⟨by decide, by decide, by decide⟩

/-- C8 (amended): on a shaped SQL text, for identifier keys that are pairwise
distinct even case-insensitively and brace-free values, substituir_variaveis
does not depend on the enumeration order of the dict. -/
theorem substituir_variaveis_ordem_insensivel (l : List Item)
    (valores valores2 : List (String × String))
    (hl : itemsOk l = true)
    (hkv : ∀ kv ∈ valores, identOk kv.1.data = true ∧ braceFree kv.2.data = true)
    (hdist : valores.Pairwise (fun a b => ciListEq a.1.data b.1.data = false))
    (hperm : valores.Perm valores2) :
    substituir_variaveis (String.mk (render l)) valores =
      substituir_variaveis (String.mk (render l)) valores2 := by
  rcases hv : valores with _ | ⟨kv0, vs0⟩
  · subst hv
    have h2 : valores2 = [] := hperm.symm.eq_nil
    rw [h2]
  · rw [← hv]
    have hne : valores ≠ [] := by rw [hv]; simp
    have hne2 : valores2 ≠ [] := by
      intro h
      subst h
      rw [hperm.eq_nil] at hne
      exact hne rfl
    rw [substituir_variaveis_render l valores hl hkv hne,
      substituir_variaveis_render l valores2 hl
        (fun kv h => hkv kv (hperm.mem_iff.mpr h)) hne2]
    have hlk : ∀ n, lookupCi (pdata valores) n = lookupCi (pdata valores2) n := by
      intro n
      refine lookupCi_perm (pdata valores) (pdata valores2) n ?_ ?_
      · rw [pdata, pdata]
        exact hperm.map (fun kv => (kv.1.data, kv.2.data))
      · simp only [pdata, List.pairwise_map]
        exact hdist
    have hmapeq : l.map (resolveItem (pdata valores)) =
        l.map (resolveItem (pdata valores2)) := by
      apply List.map_congr_left
      intro it _
      cases it with
      | txt t => rfl
      | ph n => simp [resolveItem, hlk n]
    rw [hmapeq]

theorem substituir_variaveis_ordem_insensivel_witness :
    substituir_variaveis (String.mk (render lItemEx)) [("a", "1"), ("b", "2")] =
      substituir_variaveis (String.mk (render lItemEx)) [("b", "2"), ("a", "1")] :=
  substituir_variaveis_ordem_insensivel lItemEx [("a", "1"), ("b", "2")]
    [("b", "2"), ("a", "1")] (by decide) (by decide) (by decide) (by decide)

end Campanhas
